import Mathlib

/-!
# FastDownloader: a shallow embedding of `src/FastDownloader/downloader.go`

The download engine is embedded as pure functions over an explicit state.

* `int` and `int64` values are embedded as `Int`; the Go division `/` is the
  truncating `Int.tdiv`. The functions of the download run (`initChunks`,
  `startSingleDownload`, `StartDownload`) compute over the integers, which is
  what the code computes while every offset stays below `2^63`. The chunk
  planner is also embedded in `int64` arithmetic (`initChunks64`, every sum,
  difference, product and quotient wrapped by `wrap64`); the two agree while
  `totalSize` plus the chunk size does not pass `2^63`
  (`initChunksLoop64_eq`, `initChunks64_plan`).
* A Go runtime panic (integer division by zero, slice index out of range) and
  a loop that has not finished within the given fuel are results of their own
  (`Fault`), distinct from a returned Go `error` (`Err`).
* The outside world (the HTTP server, the file system) is a parameter
  (`FileEnv`): it fixes what every request, read and write call returns.
* `SendMessage` appends to a log of sent messages, `file.WriteAt` to a log of
  writes, `client.Do` of a range request to a log of requests.
* In `runWorkers` the workers of one file are run one after the other in
  index order, which is one of the schedules of the goroutines, and
  `notifyProgress` is one step. The goroutines under any other schedule are
  `runSchedule`: a worker takes one step per access to shared state, and the
  read and the write of `fd.lastDownloaded` in `notifyProgress`, which no lock
  protects, are separate steps. The `Speed` field of an update (wall-clock
  time, floating point) is left out.
-/

namespace Downloader

/-! ## Data model -/

/-- DownloadConfig: the fields of the Go struct the engine reads. -/
structure DownloadConfig where
  URLs : List String
  ThreadCount : Int
  ChunkSizeMB : Int
  SavePaths : List String
  deriving DecidableEq, Repr

/-- DownloadChunk: an inclusive byte range and its completion flag. -/
structure DownloadChunk where
  StartOffset : Int
  EndOffset : Int
  Done : Bool
  deriving DecidableEq, Repr

/-- EventType: the six event type constants. -/
inductive EventType where
  | EventTypeStart
  | EventTypeStartOne
  | EventTypeUpdate
  | EventTypeEnd
  | EventTypeEndOne
  | EventTypeMsg
  deriving DecidableEq, Repr

open EventType

/-- Event: type and display name (the struct field `Type` is `Type_` here). -/
structure Event where
  Type_ : EventType
  Name : String
  deriving DecidableEq, Repr

/-- Go `error` values. `external` stands for an error made outside the program
(net/http, os, io, strconv); the others are the `fmt.Errorf` values of the source. -/
inductive Err where
  | external (tag : Nat)
  | countMismatch
  | sizeFailed (err : Err)
  | createFailed (err : Err)
  | truncateFailed (err : Err)
  | httpError (StatusCode : Int)
  | noContentLength
  | parseFailed (err : Err)
  deriving DecidableEq, Repr

/-- The `Text` of a Msg event: one constructor per format string of the source,
carrying the formatted arguments. -/
inductive MsgText where
  | countMismatch
  | fileFailed (url : String) (err : Err)
  | sizeFailed (err : Err)
  | chunkTooLarge (ChunkSizeMB : Int) (totalSize : Int)
  | createFailed (err : Err)
  | truncateFailed (err : Err)
  | httpError (StatusCode : Int)
  | noContentLength (StatusCode : Int)
  | parseFailed (err : Err)
  | chunkRequestFailed (chunkIndex : Nat) (err : Err)
  | chunkDownloadFailed (chunkIndex : Nat) (err : Err)
  | chunkHttpError (chunkIndex : Nat) (StatusCode : Int)
  deriving DecidableEq, Repr

/-- The payload map of a message, by shape. -/
inductive Payload where
  | empty
  | text (Text : MsgText)
  | one (URL : String) (Index : Int) (Total : Int)
  | update (Total : Int) (Added : Int)
  deriving DecidableEq, Repr

/-- One call of `SendMessage`. -/
structure Sent where
  event : Event
  data : Payload
  deriving DecidableEq, Repr

/-- One call of `file.WriteAt(buffer[:n], offset)`. -/
structure WriteAt where
  file : String
  offset : Int
  n : Nat
  deriving DecidableEq, Repr

/-- One range request handed to `client.Do`: `Range: bytes=first-last`. -/
structure RangeGet where
  url : String
  first : Int
  last : Int
  deriving DecidableEq, Repr

/-- FastDownloader: the mutable fields of the Go struct. -/
structure FastDownloader where
  config : DownloadConfig
  totalSize : Int
  downloaded : Int
  lastDownloaded : Int
  chunks : List DownloadChunk
  currentURLIndex : Int
  deriving DecidableEq, Repr

/-- The downloader together with what it has done to the outside so far. -/
structure Run where
  fd : FastDownloader
  sent : List Sent
  writes : List WriteAt
  requests : List RangeGet
  deriving DecidableEq, Repr

/-- Abnormal ends of an execution. -/
inductive Fault where
  | divideByZero
  | indexOutOfRange
  | outOfFuel
  deriving DecidableEq, Repr

/-- Equality of results is decidable, so that concrete runs can be evaluated. -/
instance instDecidableEqExcept {ε α : Type} [DecidableEq ε] [DecidableEq α] :
    DecidableEq (Except ε α)
  | Except.ok a, Except.ok b =>
    if h : a = b then isTrue (by rw [h]) else isFalse (fun h2 => h (by injection h2))
  | Except.error a, Except.error b =>
    if h : a = b then isTrue (by rw [h]) else isFalse (fun h2 => h (by injection h2))
  | Except.ok _, Except.error _ => isFalse (fun h => by cases h)
  | Except.error _, Except.ok _ => isFalse (fun h => by cases h)

/-! ## The outside world -/

/-- The `Content-Length` header of a HEAD response as `strconv.ParseInt` sees it. -/
inductive LengthHeader where
  | missing
  | malformed (err : Err)
  | value (n : Int)
  deriving DecidableEq, Repr

/-- Outcome of the HEAD request of `getFileSize`. -/
inductive HeadReply where
  | requestError (err : Err)
  | doError (err : Err)
  | response (StatusCode : Int) (contentLength : LengthHeader)
  deriving DecidableEq, Repr

/-- Result of one `resp.Body.Read(buffer)`. -/
inductive ReadErr where
  | nil
  | EOF
  | failed (err : Err)
  deriving DecidableEq, Repr

/-- One iteration of the read loop as the outside decides it: `Read` returns
`(n, err)`, and `WriteAt`, when it is called, returns `writeErr`. -/
structure BodyRead where
  n : Nat
  err : ReadErr
  writeErr : Option Err
  deriving DecidableEq, Repr

/-- Outcome of the GET request of one worker. A body is the list of its reads;
once the list is used up, `Read` returns `(0, io.EOF)`. -/
inductive GetReply where
  | requestError (err : Err)
  | doError (err : Err)
  | response (StatusCode : Int) (body : List BodyRead)
  deriving DecidableEq, Repr

/-- What the outside does during one call of `startSingleDownload`. -/
structure FileEnv where
  head : HeadReply
  create : Option Err
  truncate : Option Err
  get : Nat → GetReply

/-! ## Operations -/

/-- SendMessage: every sink receives the message; the log records it. -/
def SendMessage (r : Run) (event : Event) (data : Payload) : Run :=
  { r with sent := r.sent ++ [⟨event, data⟩] }

/-- The error message event used throughout the source. -/
def errorMsg (r : Run) (t : MsgText) : Run :=
  SendMessage r ⟨EventTypeMsg, "错误"⟩ (Payload.text t)

/-- The loop of `initChunks`: `for i := 0; i < totalSize; i += chunkSize`. -/
def initChunksLoop (totalSize chunkSize : Int) :
    Nat → Int → List DownloadChunk → Except Fault (List DownloadChunk)
  | 0, _, _ => Except.error Fault.outOfFuel
  | fuel + 1, i, chunks =>
    if i < totalSize then
      let end_ := i + chunkSize - 1
      let end_ := if end_ ≥ totalSize then totalSize - 1 else end_
      initChunksLoop totalSize chunkSize fuel (i + chunkSize)
        (chunks ++ [⟨i, end_, false⟩])
    else Except.ok chunks

/-- The chunk size `initChunks` settles on; `none` is the division by a zero
thread count. -/
def initChunkSize (cfg : DownloadConfig) (totalSize : Int) : Option Int :=
  let chunkSize := cfg.ChunkSizeMB * 1024 * 1024
  if chunkSize ≤ 0 then
    if cfg.ThreadCount = 0 then none
    else
      let chunkSize := Int.tdiv totalSize cfg.ThreadCount
      if chunkSize = 0 then some totalSize else some chunkSize
  else some chunkSize

/-- initChunks: plan the chunks of the current file. -/
def initChunks (fuel : Nat) (fd : FastDownloader) : Except Fault FastDownloader :=
  match initChunkSize fd.config fd.totalSize with
  | none => Except.error Fault.divideByZero
  | some chunkSize =>
    match initChunksLoop fd.totalSize chunkSize fuel 0 [] with
    | Except.error f => Except.error f
    | Except.ok chunks => Except.ok { fd with chunks := chunks }

/-- notifyProgress: clamp, report the increment since the last report. -/
def notifyProgress (r : Run) (total downloaded : Int) : Run :=
  let downloaded := if downloaded > total then total else downloaded
  let added := downloaded - r.fd.lastDownloaded
  let r := { r with fd := { r.fd with lastDownloaded := downloaded } }
  SendMessage r ⟨EventTypeUpdate, "update"⟩ (Payload.update total added)

/-- getFileSize: the HEAD request and the parse of `Content-Length`. -/
def getFileSize (env : FileEnv) (r : Run) : Run × Except Err Int :=
  match env.head with
  | HeadReply.requestError err => (r, Except.error err)
  | HeadReply.doError err => (r, Except.error err)
  | HeadReply.response StatusCode contentLength =>
    if StatusCode ≠ 200 then
      (errorMsg r (MsgText.httpError StatusCode), Except.error (Err.httpError StatusCode))
    else
      match contentLength with
      | LengthHeader.missing =>
        (errorMsg r (MsgText.noContentLength StatusCode), Except.error Err.noContentLength)
      | LengthHeader.malformed err =>
        (errorMsg r (MsgText.parseFailed err), Except.error (Err.parseFailed err))
      | LengthHeader.value size => (r, Except.ok size)

/-- The read loop of `downloadChunk`. The context is `context.Background()`, so
the `ctx.Done()` branch of the `select` is never taken. Returns the error the
loop returns with, or `none` when it is left by `break`. -/
def readLoop (file : String) : List BodyRead → Int → Run → Run × Option Err
  | [], _, r => (r, none)
  | b :: rest, offset, r =>
    if b.n > 0 then
      let r := { r with writes := r.writes ++ [⟨file, offset, b.n⟩] }
      match b.writeErr with
      | some writeErr => (r, some writeErr)
      | none =>
        let offset := offset + (b.n : Int)
        let r := { r with fd := { r.fd with downloaded := r.fd.downloaded + (b.n : Int) } }
        let currentDownloaded := r.fd.downloaded
        let currentDownloaded :=
          if currentDownloaded > r.fd.totalSize then r.fd.totalSize else currentDownloaded
        let r := notifyProgress r r.fd.totalSize currentDownloaded
        match b.err with
        | ReadErr.EOF => (r, none)
        | ReadErr.failed err => (r, some err)
        | ReadErr.nil => readLoop file rest offset r
    else
      match b.err with
      | ReadErr.EOF => (r, none)
      | ReadErr.failed err => (r, some err)
      | ReadErr.nil => readLoop file rest offset r

/-- Set `chunk.Done = true` through the pointer into `fd.chunks`. -/
def markDone (chunks : List DownloadChunk) (chunkIndex : Nat) : List DownloadChunk :=
  List.modify (fun c => { c with Done := true }) chunkIndex chunks

/-- downloadChunk: fetch one chunk and write it at its offset. -/
def downloadChunk (env : FileEnv) (file : String) (chunkIndex : Nat) (url : String)
    (r : Run) : Except Fault (Run × Option Err) :=
  match r.fd.chunks.get? chunkIndex with
  | none => Except.error Fault.indexOutOfRange
  | some chunk =>
    if chunk.Done then Except.ok (r, none)
    else
      match env.get chunkIndex with
      | GetReply.requestError err =>
        Except.ok (errorMsg r (MsgText.chunkRequestFailed chunkIndex err), some err)
      | GetReply.doError err =>
        let r := { r with requests := r.requests ++ [⟨url, chunk.StartOffset, chunk.EndOffset⟩] }
        Except.ok (errorMsg r (MsgText.chunkDownloadFailed chunkIndex err), some err)
      | GetReply.response StatusCode body =>
        let r := { r with requests := r.requests ++ [⟨url, chunk.StartOffset, chunk.EndOffset⟩] }
        if StatusCode ≠ 206 ∧ StatusCode ≠ 200 then
          Except.ok (errorMsg r (MsgText.chunkHttpError chunkIndex StatusCode),
            some (Err.httpError StatusCode))
        else
          match readLoop file body chunk.StartOffset r with
          | (r, some err) => Except.ok (r, some err)
          | (r, none) =>
            Except.ok ({ r with fd := { r.fd with chunks := markDone r.fd.chunks chunkIndex } },
              none)

/-- Lines 206-231 of `startSingleDownload`: the number of workers and the
single-chunk override. -/
def planWorkers (r : Run) : Run × Int :=
  let actualThreadCount := r.fd.config.ThreadCount
  let actualThreadCount :=
    if actualThreadCount > (r.fd.chunks.length : Int) then (r.fd.chunks.length : Int)
    else actualThreadCount
  let actualThreadCount := if actualThreadCount ≤ 0 then 1 else actualThreadCount
  let chunkSize := r.fd.config.ChunkSizeMB * 1024 * 1024
  if chunkSize > r.fd.totalSize ∧ r.fd.config.ChunkSizeMB > 0 then
    let r := SendMessage r ⟨EventTypeMsg, "警告"⟩
      (Payload.text (MsgText.chunkTooLarge r.fd.config.ChunkSizeMB r.fd.totalSize))
    ({ r with fd := { r.fd with chunks := [⟨0, r.fd.totalSize - 1, false⟩] } }, 1)
  else (r, actualThreadCount)

/-- The worker loop `for i := 0; i < actualThreadCount; i++` with the join:
worker `i` runs `downloadChunk` on chunk index `i`; the first error sent to
the channel is kept. `count` is the number of workers still to run. -/
def runWorkers (env : FileEnv) (file url : String) :
    Nat → Nat → Run → Option Err → Except Fault (Run × Option Err)
  | 0, _, r, first => Except.ok (r, first)
  | count + 1, i, r, first =>
    match downloadChunk env file i url r with
    | Except.error f => Except.error f
    | Except.ok (r, err) =>
      runWorkers env file url count (i + 1) r (if first.isSome then first else err)

/-- Lines 233-292 of `startSingleDownload`: create and size the file, run the
workers, report completion. -/
def fetchFile (env : FileEnv) (currentURL savePath : String) (r : Run)
    (actualThreadCount : Int) : Except Fault (Run × Option Err) :=
  match env.create with
  | some err => Except.ok (errorMsg r (MsgText.createFailed err), some (Err.createFailed err))
  | none =>
    match env.truncate with
    | some err =>
      Except.ok (errorMsg r (MsgText.truncateFailed err), some (Err.truncateFailed err))
    | none =>
      let r := notifyProgress r 0 0
      match runWorkers env savePath currentURL actualThreadCount.toNat 0 r none with
      | Except.error f => Except.error f
      | Except.ok (r, some err) => Except.ok (r, some err)
      | Except.ok (r, none) =>
        Except.ok (notifyProgress r r.fd.totalSize r.fd.downloaded, none)

/-- startSingleDownload: download one file. -/
def startSingleDownload (fuel : Nat) (env : FileEnv) (currentURL savePath : String)
    (r : Run) : Except Fault (Run × Option Err) :=
  match getFileSize env r with
  | (r, Except.error err) =>
    Except.ok (errorMsg r (MsgText.sizeFailed err), some (Err.sizeFailed err))
  | (r, Except.ok size) =>
    let r := { r with fd := { r.fd with totalSize := size } }
    match initChunks fuel r.fd with
    | Except.error f => Except.error f
    | Except.ok fd =>
      let (r, actualThreadCount) := planWorkers { r with fd := fd }
      fetchFile env currentURL savePath r actualThreadCount

/-- Lines 164-168 of `StartDownload`: reset the per-file state. -/
def resetState (fd : FastDownloader) : FastDownloader :=
  { fd with downloaded := 0, lastDownloaded := 0, totalSize := 0, chunks := [] }

/-- The loop `for i, url := range fd.config.URLs` of `StartDownload`; `envs i`
is the outside during the download of the file at index `i`. -/
def downloadAll (fuel : Nat) (envs : Nat → FileEnv) :
    List String → Nat → Run → Except Fault (Run × Option Err)
  | [], _, r => Except.ok (r, none)
  | url :: rest, i, r =>
    let r := { r with fd := { r.fd with currentURLIndex := (i : Int) } }
    match r.fd.config.SavePaths.get? i with
    | none => Except.error Fault.indexOutOfRange
    | some savePath =>
      let r := SendMessage r ⟨EventTypeStartOne, "开始一个下载"⟩
        (Payload.one url ((i : Int) + 1) (r.fd.config.URLs.length : Int))
      match startSingleDownload fuel (envs i) url savePath r with
      | Except.error f => Except.error f
      | Except.ok (r, some err) =>
        Except.ok (errorMsg r (MsgText.fileFailed url err), some err)
      | Except.ok (r, none) =>
        let r := { r with fd := resetState r.fd }
        let r := SendMessage r ⟨EventTypeEndOne, "结束一个下载"⟩
          (Payload.one url ((i : Int) + 1) (r.fd.config.URLs.length : Int))
        downloadAll fuel envs rest (i + 1) r

/-- StartDownload: download every URL of the configuration in order. -/
def StartDownload (fuel : Nat) (envs : Nat → FileEnv) (r : Run) :
    Except Fault (Run × Option Err) :=
  if r.fd.config.URLs.length ≠ r.fd.config.SavePaths.length then
    Except.ok (errorMsg r MsgText.countMismatch, some Err.countMismatch)
  else
    let r := SendMessage r ⟨EventTypeStart, "开始下载"⟩ Payload.empty
    match downloadAll fuel envs r.fd.config.URLs 0 r with
    | Except.error f => Except.error f
    | Except.ok (r, some err) => Except.ok (r, some err)
    | Except.ok (r, none) =>
      Except.ok (SendMessage r ⟨EventTypeEnd, "结束所有下载"⟩ Payload.empty, none)

/-- GetDownloader / NewFastDownloader: a fresh downloader that has done nothing. -/
def NewFastDownloader (config : DownloadConfig) : Run :=
  { fd := { config := config, totalSize := 0, downloaded := 0, lastDownloaded := 0,
            chunks := [], currentURLIndex := 0 },
    sent := [], writes := [], requests := [] }

/-! ## Specification-side definitions -/

/-- The effective chunk size as the specification words it: the hint in bytes
when a hint is given, otherwise the quotient of the size by the thread count,
replaced by the size when that quotient is zero. -/
def specChunkSize (totalSize threadCount chunkSizeMB : Int) : Int :=
  if chunkSizeMB > 0 then chunkSizeMB * 1048576
  else if totalSize / threadCount = 0 then totalSize
  else totalSize / threadCount

/-- The number of chunks of the specified plan: the size over the chunk size, rounded up. -/
def specChunkCount (totalSize s : Int) : Nat :=
  ((totalSize + s - 1) / s).toNat

/-- The `k`-th chunk (0-based) of the specified plan. -/
def specChunk (totalSize s : Int) (k : Nat) : DownloadChunk :=
  ⟨(k : Int) * s, min (((k : Int) + 1) * s - 1) (totalSize - 1), false⟩

/-- The specified plan. -/
def specPlan (totalSize s : Int) : List DownloadChunk :=
  (List.range (specChunkCount totalSize s)).map (specChunk totalSize s)

/-- The chunks are non-empty ranges, the first starts at `start`, each next one
starts right after the end of the one before, and the last ends at `stop - 1`. -/
def Tiles : Int → List DownloadChunk → Int → Prop
  | start, [], stop => start = stop
  | start, c :: cs, stop =>
    c.StartOffset = start ∧ c.StartOffset ≤ c.EndOffset ∧ Tiles (c.EndOffset + 1) cs stop

/-- The sum of the `Added` values of the update events of a log. -/
def sumAdded : List Sent → Int
  | [] => 0
  | ⟨_, Payload.update _ added⟩ :: rest => added + sumAdded rest
  | _ :: rest => sumAdded rest

/-- The number of bytes handed to `WriteAt` in a log of writes. -/
def bytesWritten : List WriteAt → Int
  | [] => 0
  | w :: rest => (w.n : Int) + bytesWritten rest

/-- A lifecycle event is one that is neither an update nor a message. -/
def isLifecycle (m : Sent) : Bool :=
  match m.event.Type_ with
  | EventTypeUpdate => false
  | EventTypeMsg => false
  | _ => true

/-- The lifecycle events of a log, in order. -/
def lifecycle (sent : List Sent) : List Sent :=
  sent.filter isLifecycle

/-- The Start event. -/
def startEvent : Sent :=
  ⟨⟨EventTypeStart, "开始下载"⟩, Payload.empty⟩

/-- The End event. -/
def endEvent : Sent :=
  ⟨⟨EventTypeEnd, "结束所有下载"⟩, Payload.empty⟩

/-- The StartOne event of the file at 0-based position `i` out of `n`. -/
def startOneEvent (url : String) (i : Nat) (n : Nat) : Sent :=
  ⟨⟨EventTypeStartOne, "开始一个下载"⟩, Payload.one url ((i : Int) + 1) (n : Int)⟩

/-- The EndOne event of the file at 0-based position `i` out of `n`. -/
def endOneEvent (url : String) (i : Nat) (n : Nat) : Sent :=
  ⟨⟨EventTypeEndOne, "结束一个下载"⟩, Payload.one url ((i : Int) + 1) (n : Int)⟩

/-- The specified lifecycle of the files `urls`, the first of them at position `i`:
StartOne then EndOne for each, in list order. -/
def filePairs (n : Nat) : List String → Nat → List Sent
  | [], _ => []
  | url :: rest, i => startOneEvent url i n :: endOneEvent url i n :: filePairs n rest (i + 1)

/-- The number of events of the given type in a log. -/
def countType (t : EventType) (sent : List Sent) : Nat :=
  (sent.filter (fun m => decide (m.event.Type_ = t))).length

/-- What every step of one file download does to the log of messages and to
the progress state: it keeps the configuration, it appends messages none of
which is a lifecycle event, and the `Added` values of the appended updates sum
to the growth of `lastDownloaded`. -/
def Quiet (r r' : Run) : Prop :=
  r'.fd.config = r.fd.config ∧
    ∃ new : List Sent, r'.sent = r.sent ++ new ∧ lifecycle new = [] ∧
      sumAdded new = r'.fd.lastDownloaded - r.fd.lastDownloaded

/-- What a step without a failed write does to the file and to the counter: it
keeps the file size, it appends writes, and the downloaded counter grows by the
number of bytes of the appended writes. -/
def Counted (r r' : Run) : Prop :=
  r'.fd.totalSize = r.fd.totalSize ∧
    ∃ ws : List WriteAt, r'.writes = r.writes ++ ws ∧
      r'.fd.downloaded = r.fd.downloaded + bytesWritten ws

/-- The writes go to `file`, the first at `offset`, each next one right after
the bytes of the one before. -/
def Consecutive (file : String) : Int → List WriteAt → Prop
  | _, [] => True
  | offset, w :: ws =>
    w.file = file ∧ w.offset = offset ∧ Consecutive file (offset + (w.n : Int)) ws

/-- The run a result ends in; `r` when the execution ended in a fault. -/
def finalRun (x : Except Fault (Run × Option Err)) (r : Run) : Run :=
  match x with
  | Except.ok (r', _) => r'
  | Except.error _ => r

/-- A downloader with the given configuration values and file size, chunks not yet planned. -/
def planInput (totalSize threadCount chunkSizeMB : Int) : FastDownloader :=
  { config := ⟨[], threadCount, chunkSizeMB, []⟩, totalSize := totalSize, downloaded := 0,
    lastDownloaded := 0, chunks := [], currentURLIndex := 0 }

/-- A server that answers HEAD with status 200 and the given length, lets the
file be created and sized, and answers the worker with chunk index `i` by `get i`. -/
def serving (size : Int) (get : Nat → GetReply) : FileEnv :=
  { head := HeadReply.response 200 (LengthHeader.value size), create := none,
    truncate := none, get := get }

/-- A body of `n` bytes delivered by one read, followed by the read that reports the end. -/
def body (n : Nat) : List BodyRead :=
  [⟨n, ReadErr.nil, none⟩, ⟨0, ReadErr.EOF, none⟩]

/-- A server for a 10-byte file that answers every range request with status
206 and 5 bytes: exact for the two chunks [0, 4] and [5, 9]. -/
def halves : FileEnv :=
  serving 10 (fun _ => GetReply.response 206 (body 5))

/-- A fresh downloader for the single file `u` saved at `p`. -/
def oneFile (threadCount chunkSizeMB : Int) : Run :=
  NewFastDownloader ⟨["u"], threadCount, chunkSizeMB, ["p"]⟩

/-! ## Definitions for the claims on the precondition, on resuming and on pausing -/

/-- An error value made outside the program. -/
def Err.isExternal : Err → Prop
  | Err.external _ => True
  | _ => False

/-- The errors the outside hands to the worker of each chunk are made outside
the program: they are none of the `fmt.Errorf` values of the source. -/
def ExternalErrors (env : FileEnv) : Prop :=
  ∀ i : Nat,
    match env.get i with
    | GetReply.requestError err => err.isExternal
    | GetReply.doError err => err.isExternal
    | GetReply.response _ body =>
      ∀ b ∈ body, (∀ e, b.writeErr = some e → e.isExternal) ∧
        (∀ e, b.err = ReadErr.failed e → e.isExternal)

/-- ResumeDownload: `return fd.StartDownload()`. -/
def ResumeDownload (fuel : Nat) (envs : Nat → FileEnv) (r : Run) :
    Except Fault (Run × Option Err) :=
  StartDownload fuel envs r

/-- The per-file state is at its initial value. -/
def perFileInitial (fd : FastDownloader) : Prop :=
  fd.downloaded = 0 ∧ fd.lastDownloaded = 0 ∧ fd.totalSize = 0 ∧ fd.chunks = []

/-- The loop of `StartDownload` (`downloadAll`) together with a trace: the
state of the downloader at each StartOne event, in order. -/
def downloadAllTraced (fuel : Nat) (envs : Nat → FileEnv) :
    List String → Nat → Run → Except Fault (Run × Option Err) × List FastDownloader
  | [], _, r => (Except.ok (r, none), [])
  | url :: rest, i, r =>
    let r := { r with fd := { r.fd with currentURLIndex := (i : Int) } }
    match r.fd.config.SavePaths.get? i with
    | none => (Except.error Fault.indexOutOfRange, [])
    | some savePath =>
      let r := SendMessage r ⟨EventTypeStartOne, "开始一个下载"⟩
        (Payload.one url ((i : Int) + 1) (r.fd.config.URLs.length : Int))
      match startSingleDownload fuel (envs i) url savePath r with
      | Except.error f => (Except.error f, [r.fd])
      | Except.ok (r', some err) =>
        (Except.ok (errorMsg r' (MsgText.fileFailed url err), some err), [r.fd])
      | Except.ok (r', none) =>
        let r' := { r' with fd := resetState r'.fd }
        let r' := SendMessage r' ⟨EventTypeEndOne, "结束一个下载"⟩
          (Payload.one url ((i : Int) + 1) (r'.fd.config.URLs.length : Int))
        ((downloadAllTraced fuel envs rest (i + 1) r').1,
          r.fd :: (downloadAllTraced fuel envs rest (i + 1) r').2)

/-- The states of the downloader at the StartOne events of one call of
`StartDownload` (or `ResumeDownload`) made in state `r`. -/
def attemptStates (fuel : Nat) (envs : Nat → FileEnv) (r : Run) : List FastDownloader :=
  if r.fd.config.URLs.length ≠ r.fd.config.SavePaths.length then []
  else
    (downloadAllTraced fuel envs r.fd.config.URLs 0
      (SendMessage r ⟨EventTypeStart, "开始下载"⟩ Payload.empty)).2

/-- A server for a 10-byte file fetched in one chunk whose body delivers 4
bytes and then fails with a read error. -/
def breaksAfterFour : FileEnv :=
  serving 10 (fun _ => GetReply.response 206 [⟨4, ReadErr.failed (Err.external 1), none⟩])

/-- A server for a 10-byte file fetched in one chunk that answers the range
request with the 10 bytes. -/
def whole : FileEnv :=
  serving 10 (fun _ => GetReply.response 206 (body 10))

/-- A `context.Context`: the background context is never done; a context made
with a cancel function is done once that function has been called. -/
inductive Context where
  | background
  | cancelable (id : Nat)
  deriving DecidableEq, Repr

/-- A downloader in use by two parties, the download and the caller of
`PauseDownload`: the run so far, the field `fd.cancel` of the Go struct (the
context its cancel function belongs to, `none` for nil), and the contexts whose
cancel function has been called. -/
structure Session where
  run : Run
  cancel : Option Nat
  cancelled : List Nat
  deriving DecidableEq, Repr

/-- The session of a downloader as `NewFastDownloader` builds it: `cancel`
is not set. No statement of the source assigns `fd.cancel` later. -/
def newSession (config : DownloadConfig) : Session :=
  { run := NewFastDownloader config, cancel := none, cancelled := [] }

/-- PauseDownload: call `fd.cancel` when it is not nil. -/
def PauseDownload (s : Session) : Session :=
  match s.cancel with
  | some id => { s with cancelled := id :: s.cancelled }
  | none => s

/-- The context `startSingleDownload` hands to its workers (line 262). -/
def workerContext : Context :=
  Context.background

/-- Whether `<-ctx.Done()` is ready. -/
def ctxDone (cancelled : List Nat) : Context → Bool
  | Context.background => false
  | Context.cancelable id => decide (id ∈ cancelled)

/-- How a read loop is left. -/
inductive LoopExit where
  | finished
  | failed (err : Err)
  | ctxErr
  deriving DecidableEq, Repr

/-- The read loop of `downloadChunk` with its `select` on `ctx.Done()` spelled
out, run while another party may call `PauseDownload`: `pauses k` tells whether
such a call happens right before the check of iteration `k`. -/
def readLoopCtx (ctx : Context) (file : String) (pauses : Nat → Bool) :
    List BodyRead → Nat → Int → Session → Session × LoopExit
  | [], k, _, s =>
    let s := if pauses k then PauseDownload s else s
    if ctxDone s.cancelled ctx then (s, LoopExit.ctxErr) else (s, LoopExit.finished)
  | b :: rest, k, offset, s =>
    let s := if pauses k then PauseDownload s else s
    if ctxDone s.cancelled ctx then (s, LoopExit.ctxErr)
    else if b.n > 0 then
      let r := { s.run with writes := s.run.writes ++ [⟨file, offset, b.n⟩] }
      match b.writeErr with
      | some writeErr => ({ s with run := r }, LoopExit.failed writeErr)
      | none =>
        let offset := offset + (b.n : Int)
        let r := { r with fd := { r.fd with downloaded := r.fd.downloaded + (b.n : Int) } }
        let currentDownloaded := r.fd.downloaded
        let currentDownloaded :=
          if currentDownloaded > r.fd.totalSize then r.fd.totalSize else currentDownloaded
        let r := notifyProgress r r.fd.totalSize currentDownloaded
        match b.err with
        | ReadErr.EOF => ({ s with run := r }, LoopExit.finished)
        | ReadErr.failed err => ({ s with run := r }, LoopExit.failed err)
        | ReadErr.nil => readLoopCtx ctx file pauses rest (k + 1) offset { s with run := r }
    else
      match b.err with
      | ReadErr.EOF => (s, LoopExit.finished)
      | ReadErr.failed err => (s, LoopExit.failed err)
      | ReadErr.nil => readLoopCtx ctx file pauses rest (k + 1) offset s

/-- The exit of the read loop without a context, as a `LoopExit`. -/
def exitOf : Option Err → LoopExit
  | none => LoopExit.finished
  | some err => LoopExit.failed err

/-! ## The chunk planner in int64 arithmetic -/

/-- The value an `int64` holds after an arithmetic result `x`: two's-complement
wrap-around into `[-2^63, 2^63 - 1]`. -/
def wrap64 (x : Int) : Int :=
  (x + 9223372036854775808) % 18446744073709551616 - 9223372036854775808

/-- The loop of `initChunks` (lines 354-364) with every `int64` addition and
subtraction wrapped. -/
def initChunksLoop64 (totalSize chunkSize : Int) :
    Nat → Int → List DownloadChunk → Except Fault (List DownloadChunk)
  | 0, _, _ => Except.error Fault.outOfFuel
  | fuel + 1, i, chunks =>
    if i < totalSize then
      let end_ := wrap64 (wrap64 (i + chunkSize) - 1)
      let end_ := if end_ ≥ totalSize then wrap64 (totalSize - 1) else end_
      initChunksLoop64 totalSize chunkSize fuel (wrap64 (i + chunkSize))
        (chunks ++ [⟨i, end_, false⟩])
    else Except.ok chunks

/-- The chunk size `initChunks` settles on (lines 345-351) with every `int64`
product and quotient wrapped; `none` is the division by a zero thread count. -/
def initChunkSize64 (cfg : DownloadConfig) (totalSize : Int) : Option Int :=
  let chunkSize := wrap64 (wrap64 (cfg.ChunkSizeMB * 1024) * 1024)
  if chunkSize ≤ 0 then
    if cfg.ThreadCount = 0 then none
    else
      let chunkSize := wrap64 (Int.tdiv totalSize cfg.ThreadCount)
      if chunkSize = 0 then some totalSize else some chunkSize
  else some chunkSize

/-- initChunks in `int64` arithmetic. -/
def initChunks64 (fuel : Nat) (fd : FastDownloader) : Except Fault FastDownloader :=
  match initChunkSize64 fd.config fd.totalSize with
  | none => Except.error Fault.divideByZero
  | some chunkSize =>
    match initChunksLoop64 fd.totalSize chunkSize fuel 0 [] with
    | Except.error f => Except.error f
    | Except.ok chunks => Except.ok { fd with chunks := chunks }

/-! ## Workers as interleaved goroutines -/

/-- The places of a worker goroutine on the success path of `downloadChunk`,
one per access to state shared with the other workers. Inside the handling of
a non-empty read: `WriteAt` (lines 428-436), the atomic add (437), the atomic
load with its clamp (440-443), and inside `notifyProgress` the read of
`fd.lastDownloaded` (469-473), the write of `fd.lastDownloaded` (474) and
`SendMessage` (476-483). After the last read: `chunk.Done = true` (455). -/
inductive Pc where
  | write
  | add
  | load
  | readLast
  | writeLast
  | send
  | finished
  deriving DecidableEq, Repr

/-- A worker goroutine whose range request has been answered: its chunk index,
the file, its running `offset`, the sizes of the non-empty reads still to
come, its place, and its local variables `currentDownloaded` (named
`downloaded` inside `notifyProgress`), `total` and `added`. -/
structure Worker where
  chunkIndex : Nat
  file : String
  offset : Int
  reads : List Nat
  pc : Pc
  downloaded : Int
  total : Int
  added : Int
  deriving DecidableEq, Repr

/-- One step of a worker: the access to shared state at its place. Neither
`fd.lastDownloaded` nor the pair of lines 473-474 is under a lock in the
source, so the read and the write of that field are two steps. -/
def stepWorker (w : Worker) (r : Run) : Worker × Run :=
  match w.pc, w.reads with
  | Pc.finished, _ => (w, r)
  | _, [] =>
    ({ w with pc := Pc.finished },
      { r with fd := { r.fd with chunks := markDone r.fd.chunks w.chunkIndex } })
  | Pc.write, n :: _ =>
    ({ w with offset := w.offset + (n : Int), pc := Pc.add },
      { r with writes := r.writes ++ [⟨w.file, w.offset, n⟩] })
  | Pc.add, n :: _ =>
    ({ w with pc := Pc.load },
      { r with fd := { r.fd with downloaded := r.fd.downloaded + (n : Int) } })
  | Pc.load, _ :: _ =>
    ({ w with
        pc := Pc.readLast,
        downloaded :=
          if r.fd.downloaded > r.fd.totalSize then r.fd.totalSize else r.fd.downloaded,
        total := r.fd.totalSize },
      r)
  | Pc.readLast, _ :: _ =>
    let downloaded := if w.downloaded > w.total then w.total else w.downloaded
    ({ w with
        pc := Pc.writeLast,
        downloaded := downloaded,
        added := downloaded - r.fd.lastDownloaded },
      r)
  | Pc.writeLast, _ :: _ =>
    ({ w with pc := Pc.send }, { r with fd := { r.fd with lastDownloaded := w.downloaded } })
  | Pc.send, _ :: rest =>
    ({ w with pc := Pc.write, reads := rest },
      SendMessage r ⟨EventTypeUpdate, "update"⟩ (Payload.update w.total w.added))

/-- Run the workers under a schedule: each entry names the worker that takes
the next step. -/
def runSchedule : List Nat → List Worker → Run → List Worker × Run
  | [], ws, r => (ws, r)
  | k :: schedule, ws, r =>
    match ws.get? k with
    | none => runSchedule schedule ws r
    | some w => runSchedule schedule (ws.set k (stepWorker w r).1) (stepWorker w r).2

/-- Lines 258-291 of `startSingleDownload` on the success path, with the
workers interleaved by a schedule: the initial report, the workers, the final
report. -/
def fetchInterleaved (schedule : List Nat) (ws : List Worker) (r : Run) : Run :=
  let r := notifyProgress r 0 0
  let r := (runSchedule schedule ws r).2
  notifyProgress r r.fd.totalSize r.fd.downloaded

/-- The download of the 10-byte file of `halves` with 2 threads at the point
where the workers are started: the chunks are [0, 4] and [5, 9], and both
range requests are on their way. -/
def plannedHalves : Run :=
  { oneFile 2 0 with
    fd := { (oneFile 2 0).fd with totalSize := 10, chunks := [⟨0, 4, false⟩, ⟨5, 9, false⟩] },
    requests := [⟨"u", 0, 4⟩, ⟨"u", 5, 9⟩] }

/-- The two workers of `plannedHalves`, each answered as by `halves`: its 5
bytes in one read. -/
def halvesWorkers : List Worker :=
  [⟨0, "p", 0, [5], Pc.write, 0, 0, 0⟩, ⟨1, "p", 5, [5], Pc.write, 0, 0, 0⟩]

/-! ## The chunk planner -/

/-- With a positive chunk size the loop of `initChunks`, entered at the start of
chunk `k` with enough fuel for the `m` chunks still to come, appends exactly
the specified chunks `k, ..., k + m - 1`. -/
theorem initChunksLoop_spec (totalSize s : Int) (hs : 0 < s) :
    ∀ (m k : Nat) (fuel : Nat) (chunks : List DownloadChunk),
      k + m = specChunkCount totalSize s → m < fuel →
      initChunksLoop totalSize s fuel ((k : Int) * s) chunks =
        Except.ok (chunks ++ (List.range' k m).map (specChunk totalSize s)) := by
  have hdiv1 : (totalSize + s - 1) / s * s ≤ totalSize + s - 1 := Int.ediv_mul_le _ (ne_of_gt hs)
  have hdiv2 : totalSize + s - 1 < ((totalSize + s - 1) / s + 1) * s := by
    have := Int.lt_ediv_add_one_mul_self (totalSize + s - 1) hs
    linarith
  intro m
  induction m with
  | zero =>
    intro k fuel chunks hk hf
    obtain ⟨fuel, rfl⟩ : ∃ f, fuel = f + 1 := ⟨fuel - 1, by omega⟩
    have hge : ¬ ((k : Int) * s < totalSize) := by
      intro hlt
      have hk2 : ((totalSize + s - 1) / s).toNat = k := by
        unfold specChunkCount at hk; omega
      have hq : (totalSize + s - 1) / s ≤ (k : Int) := by
        rw [← hk2]; exact Int.self_le_toNat _
      have : ((totalSize + s - 1) / s + 1) * s ≤ ((k : Int) + 1) * s :=
        mul_le_mul_of_nonneg_right (by linarith) (le_of_lt hs)
      nlinarith
    simp [initChunksLoop, hge]
  | succ m ih =>
    intro k fuel chunks hk hf
    obtain ⟨fuel, rfl⟩ : ∃ f, fuel = f + 1 := ⟨fuel - 1, by omega⟩
    have hk2 : ((totalSize + s - 1) / s).toNat = k + (m + 1) := by
      unfold specChunkCount at hk; omega
    have hq : ((k : Int) + 1) ≤ (totalSize + s - 1) / s := by
      have h1 : (((totalSize + s - 1) / s).toNat : Int) = (k : Int) + ((m : Int) + 1) := by
        rw [hk2]; push_cast; ring
      have h2 : 0 < (totalSize + s - 1) / s := by
        by_contra hneg
        have : ((totalSize + s - 1) / s).toNat = 0 := Int.toNat_eq_zero.mpr (by linarith)
        omega
      rw [Int.toNat_of_nonneg (le_of_lt h2)] at h1
      have : (0 : Int) ≤ (m : Int) := Int.natCast_nonneg m
      linarith
    have hlt : (k : Int) * s < totalSize := by
      have : ((k : Int) + 1) * s ≤ (totalSize + s - 1) / s * s :=
        mul_le_mul_of_nonneg_right hq (le_of_lt hs)
      nlinarith
    have hnext : (k : Int) * s + s = ((k + 1 : Nat) : Int) * s := by push_cast; ring
    have hchunk :
        (if (k : Int) * s + s - 1 ≥ totalSize then totalSize - 1 else (k : Int) * s + s - 1)
          = min (((k : Int) + 1) * s - 1) (totalSize - 1) := by
      have e : ((k : Int) + 1) * s - 1 = (k : Int) * s + s - 1 := by ring
      rw [e]
      split_ifs with h
      · rw [min_eq_right]; linarith
      · rw [min_eq_left]; push_neg at h; linarith
    simp only [initChunksLoop, hlt, if_true]
    rw [hchunk, hnext, ih (k + 1) fuel _ (by omega) (by omega)]
    simp [List.range'_succ, specChunk]

/-- With a negative chunk size the loop of `initChunks`, once at an offset that
is not positive, never reaches a positive file size: no amount of fuel suffices. -/
theorem initChunksLoop_negative_diverges (totalSize s : Int) (ht : 0 < totalSize) (hs : s < 0) :
    ∀ (fuel : Nat) (i : Int) (chunks : List DownloadChunk), i ≤ 0 →
      initChunksLoop totalSize s fuel i chunks = Except.error Fault.outOfFuel := by
  intro fuel
  induction fuel with
  | zero => intro i chunks _; rfl
  | succ fuel ih =>
    intro i chunks hi
    have hlt : i < totalSize := by linarith
    simp only [initChunksLoop, hlt, if_true]
    exact ih _ _ (by linarith)

/-- The chunk size the code settles on is the specified effective chunk size,
and it is positive, whenever a hint is given or the thread count is at least 1. -/
theorem initChunkSize_spec (cfg : DownloadConfig) (totalSize : Int) (ht : 0 < totalSize)
    (hcfg : 0 < cfg.ChunkSizeMB ∨ 1 ≤ cfg.ThreadCount) :
    initChunkSize cfg totalSize
        = some (specChunkSize totalSize cfg.ThreadCount cfg.ChunkSizeMB) ∧
      0 < specChunkSize totalSize cfg.ThreadCount cfg.ChunkSizeMB := by
  unfold initChunkSize specChunkSize
  by_cases hm : 0 < cfg.ChunkSizeMB
  · have h1 : ¬ (cfg.ChunkSizeMB * 1048576 ≤ 0) := by omega
    have h2 : cfg.ChunkSizeMB * 1024 * 1024 = cfg.ChunkSizeMB * 1048576 := by ring
    simp only [h2, h1, if_false, gt_iff_lt, hm, if_true]
    exact ⟨trivial, by omega⟩
  · have hth : 1 ≤ cfg.ThreadCount := by
      rcases hcfg with h | h
      · exact absurd h hm
      · exact h
    have h1 : cfg.ChunkSizeMB * 1024 * 1024 ≤ 0 := by omega
    have h3 : cfg.ThreadCount ≠ 0 := by omega
    have h4 : Int.tdiv totalSize cfg.ThreadCount = totalSize / cfg.ThreadCount :=
      Int.tdiv_eq_ediv (le_of_lt ht) (by omega)
    have h5 : 0 ≤ totalSize / cfg.ThreadCount := Int.ediv_nonneg (le_of_lt ht) (by omega)
    simp only [h1, if_true, h3, if_false, gt_iff_lt, hm, h4]
    by_cases hq : totalSize / cfg.ThreadCount = 0
    · simp only [hq, if_true]; exact ⟨trivial, ht⟩
    · simp only [hq, if_false]; exact ⟨trivial, by omega⟩

/-! ## Claims about the plan and the workers -/

/-- C1 (the code at the failing inputs): for a 10-byte file and no chunk size
hint, a thread count of 0 makes `initChunks` divide by zero, and a thread count
of -2 makes its loop run without end whatever the fuel; in both cases
`startSingleDownload` produces no chunk plan. -/
theorem startSingleDownload_no_plan_for_nonpositive_threads :
    (∀ fuel : Nat, startSingleDownload fuel (serving 10 (fun _ => GetReply.response 206 (body 10)))
        "u" "p" (oneFile 0 0) = Except.error Fault.divideByZero) ∧
    (∀ fuel : Nat, startSingleDownload fuel (serving 10 (fun _ => GetReply.response 206 (body 10)))
        "u" "p" (oneFile (-2) 0) = Except.error Fault.outOfFuel) := by
  constructor
  · intro fuel; rfl
  · intro fuel
    have h : initChunksLoop 10 (-5) fuel 0 [] = Except.error Fault.outOfFuel :=
      initChunksLoop_negative_diverges 10 (-5) (by decide) (by decide) fuel 0 [] (le_refl 0)
    have hs : initChunkSize ⟨["u"], -2, 0, ["p"]⟩ 10 = some (-5) := by decide
    simp [startSingleDownload, getFileSize, serving, oneFile, NewFastDownloader, initChunks,
      hs, h]

/-- C2 (the code at the failing input): a 10-byte file with 3 threads and no
hint is planned as 4 chunks, 3 workers are run, the server answers every range
request exactly, and `startSingleDownload` returns success although chunk 3,
the byte range [9, 9], was never requested, never written and is not done. -/
theorem startSingleDownload_leaves_last_chunk_unfetched :
    (startSingleDownload 5
        (serving 10 (fun i => GetReply.response 206 (body (if i < 3 then 3 else 1))))
        "u" "p" (oneFile 3 0)).map
      (fun x => (x.2, x.1.fd.chunks, x.1.requests, x.1.writes)) =
    Except.ok (none,
      [⟨0, 2, true⟩, ⟨3, 5, true⟩, ⟨6, 8, true⟩, ⟨9, 9, false⟩],
      [⟨"u", 0, 2⟩, ⟨"u", 3, 5⟩, ⟨"u", 6, 8⟩],
      [⟨"p", 0, 3⟩, ⟨"p", 3, 3⟩, ⟨"p", 6, 3⟩]) := by
  decide

/-- C3 (the code at the failing input): for a file of length 0 with 4 threads
and no hint the plan is empty, yet the worker count is floored to 1, so worker 0
indexes an empty chunk list and the download ends in an index-out-of-range panic. -/
theorem startSingleDownload_zero_length_worker_without_chunk :
    ∀ fuel : Nat,
      (initChunks (fuel + 1) (planInput 0 4 0)).map (fun fd => fd.chunks) = Except.ok [] ∧
      (planWorkers ⟨planInput 0 4 0, [], [], []⟩).2 = 1 ∧
      startSingleDownload (fuel + 1) (serving 0 (fun _ => GetReply.response 206 (body 0)))
        "u" "p" (oneFile 4 0) = Except.error Fault.indexOutOfRange := by
  intro fuel
  refine ⟨rfl, by decide, rfl⟩

/-- C4: when the HEAD request reports a length `totalSize > 0` and the chunk
size hint in bytes exceeds it, `startSingleDownload` (given fuel for one chunk)
continues into the fetch phase with the plan replaced by the single chunk
`[0, totalSize - 1]`, not done, with worker count 1, and with the warning
message already sent; this holds for every thread count. -/
theorem startSingleDownload_oversized_hint (fuel : Nat) (env : FileEnv)
    (currentURL savePath : String) (r : Run) (totalSize : Int)
    (hfuel : 2 ≤ fuel)
    (hhead : env.head = HeadReply.response 200 (LengthHeader.value totalSize))
    (ht : 0 < totalSize) (hm : 0 < r.fd.config.ChunkSizeMB)
    (hbig : totalSize < r.fd.config.ChunkSizeMB * 1048576) :
    startSingleDownload fuel env currentURL savePath r =
      fetchFile env currentURL savePath
        { r with
          fd := { r.fd with totalSize := totalSize, chunks := [⟨0, totalSize - 1, false⟩] },
          sent := r.sent ++ [⟨⟨EventTypeMsg, "警告"⟩,
            Payload.text (MsgText.chunkTooLarge r.fd.config.ChunkSizeMB totalSize)⟩] }
        1 := by
  obtain ⟨fuel, rfl⟩ : ∃ f, fuel = f + 2 := ⟨fuel - 2, by omega⟩
  have h2 : r.fd.config.ChunkSizeMB * 1024 * 1024 = r.fd.config.ChunkSizeMB * 1048576 := by ring
  have h1 : ¬ (r.fd.config.ChunkSizeMB * 1048576 ≤ 0) := by omega
  have h3 : ¬ (r.fd.config.ChunkSizeMB * 1048576 < totalSize) := by omega
  have h4 : totalSize ≤ r.fd.config.ChunkSizeMB * 1048576 - 1 := by omega
  simp [startSingleDownload, getFileSize, hhead, initChunks, initChunkSize, initChunksLoop,
    planWorkers, SendMessage, h2, h1, h3, h4, ht, hm, hbig]

/-- A witness of C4: a file of 1048576 bytes with a 5 MiB hint and 8 threads. -/
theorem startSingleDownload_oversized_hint_witness :
    startSingleDownload 2 (serving 1048576 (fun _ => GetReply.response 206 (body 1048576)))
        "u" "p" (oneFile 8 5) =
      fetchFile (serving 1048576 (fun _ => GetReply.response 206 (body 1048576))) "u" "p"
        { oneFile 8 5 with
          fd := { (oneFile 8 5).fd with totalSize := 1048576, chunks := [⟨0, 1048575, false⟩] },
          sent := [⟨⟨EventTypeMsg, "警告"⟩, Payload.text (MsgText.chunkTooLarge 5 1048576)⟩] }
        1 :=
  startSingleDownload_oversized_hint 2 _ "u" "p" (oneFile 8 5) 1048576 (le_refl 2) rfl
    (by decide) (by decide) (by decide)

/-- The planner over the integers, where no sum wraps: for a positive file size
and either a chunk size hint or a thread count of at least 1, `initChunks`
with fuel for one step more than the specified number of chunks returns the
specified plan: `ceil(totalSize / s)` chunks, the `k`-th being
`[k * s, min ((k + 1) * s - 1) (totalSize - 1)]`, not done, where `s` is the
effective chunk size; with no hint and more threads than bytes the plan is the
single chunk `[0, totalSize - 1]`. The planner in `int64` arithmetic is
`initChunks64`. -/
theorem initChunks_plan (fuel : Nat) (fd : FastDownloader) (ht : 0 < fd.totalSize)
    (hcfg : 0 < fd.config.ChunkSizeMB ∨ 1 ≤ fd.config.ThreadCount)
    (hfuel : specChunkCount fd.totalSize
        (specChunkSize fd.totalSize fd.config.ThreadCount fd.config.ChunkSizeMB) < fuel) :
    initChunks fuel fd = Except.ok
      { fd with
        chunks := specPlan fd.totalSize
          (specChunkSize fd.totalSize fd.config.ThreadCount fd.config.ChunkSizeMB) } ∧
    (fd.config.ChunkSizeMB ≤ 0 → fd.totalSize < fd.config.ThreadCount →
      initChunks fuel fd = Except.ok { fd with chunks := [⟨0, fd.totalSize - 1, false⟩] }) := by
  obtain ⟨hsize, hpos⟩ := initChunkSize_spec fd.config fd.totalSize ht hcfg
  have hloop := initChunksLoop_spec fd.totalSize _ hpos
    (specChunkCount fd.totalSize
      (specChunkSize fd.totalSize fd.config.ThreadCount fd.config.ChunkSizeMB)) 0 fuel []
    (by omega) hfuel
  have hmain : initChunks fuel fd = Except.ok
      { fd with
        chunks := specPlan fd.totalSize
          (specChunkSize fd.totalSize fd.config.ThreadCount fd.config.ChunkSizeMB) } := by
    simp only [Nat.cast_zero, zero_mul, List.nil_append] at hloop
    simp only [initChunks, hsize, hloop, specPlan, List.range_eq_range']
  refine ⟨hmain, ?_⟩
  intro hno hmany
  rw [hmain]
  have hq : fd.totalSize / fd.config.ThreadCount = 0 :=
    Int.ediv_eq_zero_of_lt (le_of_lt ht) hmany
  have hs : specChunkSize fd.totalSize fd.config.ThreadCount fd.config.ChunkSizeMB
      = fd.totalSize := by
    have : ¬ (fd.config.ChunkSizeMB > 0) := by omega
    simp [specChunkSize, this, hq]
  have hc : specChunkCount fd.totalSize fd.totalSize = 1 := by
    unfold specChunkCount
    have e : fd.totalSize + fd.totalSize - 1 = (fd.totalSize - 1) + 1 * fd.totalSize := by ring
    rw [e, Int.add_mul_ediv_right _ _ (ne_of_gt ht),
      Int.ediv_eq_zero_of_lt (by omega) (by omega)]
    rfl
  rw [hs]
  simp [specPlan, hc, specChunk, List.range_succ]

/-- An instance of `initChunks_plan`: 10 MiB with a 3 MiB hint gives the four
chunks of the specification. -/
theorem initChunks_plan_witness :
    initChunks 5 (planInput 10485760 4 3) = Except.ok
      { planInput 10485760 4 3 with
        chunks := [⟨0, 3145727, false⟩, ⟨3145728, 6291455, false⟩, ⟨6291456, 9437183, false⟩,
          ⟨9437184, 10485759, false⟩] } :=
  (initChunks_plan 5 (planInput 10485760 4 3) (by decide) (by decide) (by decide)).1.trans
    (by decide)


/-- The specified chunk count separates the chunk starts below the file size
from those at or beyond it. -/
theorem lt_specChunkCount_iff (totalSize s : Int) (hs : 0 < s) (k : Nat) :
    k < specChunkCount totalSize s ↔ (k : Int) * s < totalSize := by
  unfold specChunkCount
  rw [Int.lt_toNat]
  constructor
  · intro h
    have h1 : ((k : Int) + 1) * s ≤ totalSize + s - 1 :=
      (Int.le_ediv_iff_mul_le hs).mp (by omega)
    linarith
  · intro h
    have h1 : (k : Int) + 1 ≤ (totalSize + s - 1) / s :=
      (Int.le_ediv_iff_mul_le hs).mpr (by linarith)
    omega

/-- The specified chunks `k, ..., k + m - 1`, up to the last one, tile the bytes
from the start of chunk `k` to the end of the file. -/
theorem specChunks_tiles (totalSize s : Int) (hs : 0 < s) :
    ∀ (m k : Nat), k + m = specChunkCount totalSize s →
      Tiles (min ((k : Int) * s) totalSize)
        ((List.range' k m).map (specChunk totalSize s)) totalSize := by
  intro m
  induction m with
  | zero =>
    intro k hk
    have h : ¬ ((k : Int) * s < totalSize) := by
      rw [← lt_specChunkCount_iff totalSize s hs k]; omega
    simp only [List.range'_zero, List.map_nil, Tiles]
    exact min_eq_right (by linarith)
  | succ m ih =>
    intro k hk
    have h : (k : Int) * s < totalSize := by
      rw [← lt_specChunkCount_iff totalSize s hs k]; omega
    have hnext := ih (k + 1) (by omega)
    simp only [List.range'_succ, List.map_cons, Tiles, specChunk]
    refine ⟨(min_eq_left (le_of_lt h)).symm, ?_, ?_⟩
    · apply le_min <;> nlinarith
    · have e : min (((k : Int) + 1) * s - 1) (totalSize - 1) + 1
          = min (((k + 1 : Nat) : Int) * s) totalSize := by
        push_cast
        rcases le_total (((k : Int) + 1) * s) totalSize with h1 | h1
        · rw [min_eq_left (by linarith), min_eq_left h1]; ring
        · rw [min_eq_right (by linarith), min_eq_right h1]; ring
      rw [e]; exact hnext

/-- The specified plan of a non-empty file is not empty and tiles `[0, totalSize - 1]`:
it is sorted, contiguous, without overlap, starts at 0 and ends at `totalSize - 1`. -/
theorem specPlan_tiles (totalSize s : Int) (ht : 0 < totalSize) (hs : 0 < s) :
    specPlan totalSize s ≠ [] ∧ Tiles 0 (specPlan totalSize s) totalSize := by
  constructor
  · have h : 0 < specChunkCount totalSize s :=
      (lt_specChunkCount_iff totalSize s hs 0).mpr (by simpa using ht)
    intro hnil
    have hl : (specPlan totalSize s).length = 0 := by rw [hnil]; rfl
    simp [specPlan] at hl
    omega
  · have h := specChunks_tiles totalSize s hs (specChunkCount totalSize s) 0 (by omega)
    simp only [Nat.cast_zero, zero_mul] at h
    rw [min_eq_left (le_of_lt ht)] at h
    simpa [specPlan, List.range_eq_range'] using h

/-- With a plan that is not empty the worker count is at least 1 and at most
the number of chunks of the plan the workers use. -/
theorem planWorkers_count (r : Run) (h : r.fd.chunks ≠ []) :
    1 ≤ (planWorkers r).2 ∧
      (planWorkers r).2 ≤ ((planWorkers r).1.fd.chunks.length : Int) := by
  have hl : 0 < r.fd.chunks.length := List.length_pos.mpr h
  unfold planWorkers
  dsimp only
  split
  · simp
  · dsimp only
    split_ifs <;> omega

/-- The writes of one worker start at the offset the read loop is entered with
and follow one another without a gap. -/
theorem readLoop_writes_consecutive (file : String) :
    ∀ (body : List BodyRead) (offset : Int) (r : Run),
      ∃ ws : List WriteAt, (readLoop file body offset r).1.writes = r.writes ++ ws ∧
        Consecutive file offset ws := by
  intro body
  induction body with
  | nil => intro offset r; exact ⟨[], by simp [readLoop], trivial⟩
  | cons b rest ih =>
    intro offset r
    unfold readLoop
    split
    · split
      · exact ⟨[⟨file, offset, b.n⟩], rfl, rfl, rfl, trivial⟩
      · dsimp only
        split
        · exact ⟨[⟨file, offset, b.n⟩], rfl, rfl, rfl, trivial⟩
        · exact ⟨[⟨file, offset, b.n⟩], rfl, rfl, rfl, trivial⟩
        · obtain ⟨ws, h1, h2⟩ := ih (offset + (b.n : Int)) (notifyProgress
            { r with
              writes := r.writes ++ [⟨file, offset, b.n⟩],
              fd := { r.fd with downloaded := r.fd.downloaded + (b.n : Int) } }
            r.fd.totalSize
            (if r.fd.downloaded + (b.n : Int) > r.fd.totalSize then r.fd.totalSize
              else r.fd.downloaded + (b.n : Int)))
          refine ⟨⟨file, offset, b.n⟩ :: ws, ?_, rfl, rfl, h2⟩
          rw [h1]
          simp [notifyProgress, SendMessage]
    · split
      · exact ⟨[], by simp, trivial⟩
      · exact ⟨[], by simp, trivial⟩
      · exact ih _ _

/-! ## Claims about writes and progress: the code at concrete inputs -/

/-- C6 (the code at the failing input): a 10-byte file is planned as the chunks
[0, 4] and [5, 9]; the server ignores the range and answers each worker with
status 200 and the whole 10-byte body. Both workers are accepted as successful;
worker 0 writes bytes 0..9, past its end offset 4, and worker 1 writes 10 bytes
at offset 5, past its end offset 9 and past the end of the 10-byte file. -/
theorem startSingleDownload_writes_past_chunk_end :
    (startSingleDownload 3 (serving 10 (fun _ => GetReply.response 200 (body 10)))
        "u" "p" (oneFile 2 0)).map
      (fun x => (x.2, x.1.fd.chunks, x.1.writes)) =
    Except.ok (none, [⟨0, 4, true⟩, ⟨5, 9, true⟩], [⟨"p", 0, 10⟩, ⟨"p", 5, 10⟩]) := by
  decide

/-- With a server that ignores the range and answers each of the two requests
with the whole 10-byte body, the download succeeds from `lastDownloaded = 0`,
the `Added` values sum to 10 and the downloaded counter ends at 20. -/
theorem sumAdded_ne_downloaded :
    (oneFile 2 0).fd.lastDownloaded = 0 ∧
    (startSingleDownload 3 (serving 10 (fun _ => GetReply.response 200 (body 10)))
        "u" "p" (oneFile 2 0)).map
      (fun x => (x.2, sumAdded x.1.sent, x.1.fd.downloaded,
        decide (sumAdded x.1.sent = x.1.fd.downloaded))) =
    Except.ok (none, 10, 20, false) := by
  decide

/-- C8 (counterexample): a 10-byte file in one chunk whose range request is
answered with 4 bytes and then the end of the body. The download returns
success, and after the final report both `lastDownloaded` and the downloaded
counter are 4 while `totalSize` is 10. -/
theorem final_report_does_not_force_total :
    (startSingleDownload 2 (serving 10 (fun _ => GetReply.response 206 (body 4)))
        "u" "p" (oneFile 1 0)).map
      (fun x => (x.2, x.1.fd.totalSize, x.1.fd.lastDownloaded, x.1.fd.downloaded)) =
    Except.ok (none, 10, 4, 4) := by
  decide


/-! ## What a file download keeps -/

theorem sumAdded_append (a b : List Sent) : sumAdded (a ++ b) = sumAdded a + sumAdded b := by
  induction a with
  | nil => simp [sumAdded]
  | cons m a ih =>
    obtain ⟨ev, data⟩ := m
    cases data <;> simp [sumAdded, ih, add_assoc]

theorem bytesWritten_append (a b : List WriteAt) :
    bytesWritten (a ++ b) = bytesWritten a + bytesWritten b := by
  induction a with
  | nil => simp [bytesWritten]
  | cons w a ih => simp [bytesWritten, ih, add_assoc]

theorem lifecycle_append (a b : List Sent) : lifecycle (a ++ b) = lifecycle a ++ lifecycle b := by
  simp [lifecycle]

theorem quiet_refl (r : Run) : Quiet r r :=
  ⟨rfl, [], by simp, rfl, by simp [sumAdded]⟩

theorem quiet_trans {a b c : Run} (h1 : Quiet a b) (h2 : Quiet b c) : Quiet a c := by
  obtain ⟨hc1, n1, hs1, hl1, ha1⟩ := h1
  obtain ⟨hc2, n2, hs2, hl2, ha2⟩ := h2
  refine ⟨hc2.trans hc1, n1 ++ n2, ?_, ?_, ?_⟩
  · rw [hs2, hs1, List.append_assoc]
  · rw [lifecycle_append, hl1, hl2]; rfl
  · rw [sumAdded_append, ha1, ha2]; ring

theorem quiet_of_eq {r r' : Run} (h1 : r'.fd.config = r.fd.config) (h2 : r'.sent = r.sent)
    (h3 : r'.fd.lastDownloaded = r.fd.lastDownloaded) : Quiet r r' :=
  ⟨h1, [], by simp [h2], rfl, by simp [sumAdded, h3]⟩

theorem quiet_errorMsg (r : Run) (t : MsgText) : Quiet r (errorMsg r t) :=
  ⟨rfl, [⟨⟨EventTypeMsg, "错误"⟩, Payload.text t⟩], rfl, rfl, by simp [errorMsg, SendMessage, sumAdded]⟩

theorem quiet_notifyProgress (r : Run) (total downloaded : Int) :
    Quiet r (notifyProgress r total downloaded) :=
  ⟨rfl, [⟨⟨EventTypeUpdate, "update"⟩, Payload.update total
      ((if downloaded > total then total else downloaded) - r.fd.lastDownloaded)⟩],
    rfl, rfl, by simp [notifyProgress, SendMessage, sumAdded]⟩

theorem quiet_readLoop (file : String) :
    ∀ (body : List BodyRead) (offset : Int) (r : Run), Quiet r (readLoop file body offset r).1 := by
  intro body
  induction body with
  | nil => intro offset r; exact quiet_refl r
  | cons b rest ih =>
    intro offset r
    unfold readLoop
    split
    · split
      · exact quiet_of_eq rfl rfl rfl
      · have hq : Quiet r (notifyProgress
            { r with
              writes := r.writes ++ [⟨file, offset, b.n⟩],
              fd := { r.fd with downloaded := r.fd.downloaded + (b.n : Int) } }
            r.fd.totalSize
            (if r.fd.downloaded + (b.n : Int) > r.fd.totalSize then r.fd.totalSize
              else r.fd.downloaded + (b.n : Int))) :=
          quiet_trans (quiet_of_eq rfl rfl rfl) (quiet_notifyProgress _ _ _)
        split
        · exact hq
        · exact hq
        · exact quiet_trans hq (ih _ _)
    · split
      · exact quiet_refl r
      · exact quiet_refl r
      · exact ih _ _


theorem quiet_of_readLoop {file : String} {body : List BodyRead} {offset : Int} {r r' : Run}
    {res : Option Err} (h : readLoop file body offset r = (r', res)) : Quiet r r' := by
  have hq := quiet_readLoop file body offset r
  rw [h] at hq
  exact hq

theorem quiet_downloadChunk (env : FileEnv) (file url : String) (i : Nat) (r r' : Run)
    (res : Option Err) (h : downloadChunk env file i url r = Except.ok (r', res)) :
    Quiet r r' := by
  unfold downloadChunk at h
  split at h
  · cases h
  · split at h
    · cases h; exact quiet_refl r
    · split at h
      · cases h; exact quiet_errorMsg r _
      · cases h
        exact quiet_trans (quiet_of_eq rfl rfl rfl) (quiet_errorMsg _ _)
      · split at h
        · cases h
          exact quiet_trans (quiet_of_eq rfl rfl rfl) (quiet_errorMsg _ _)
        · dsimp only at h
          split at h
          · next heq =>
            cases h
            have hq := quiet_of_readLoop heq
            exact quiet_trans (quiet_of_eq rfl rfl rfl) hq
          · next heq =>
            cases h
            have hq := quiet_of_readLoop heq
            exact quiet_trans (quiet_trans (quiet_of_eq rfl rfl rfl) hq)
              (quiet_of_eq rfl rfl rfl)

theorem quiet_runWorkers (env : FileEnv) (file url : String) :
    ∀ (count i : Nat) (r r' : Run) (first res : Option Err),
      runWorkers env file url count i r first = Except.ok (r', res) → Quiet r r' := by
  intro count
  induction count with
  | zero =>
    intro i r r' first res h
    simp only [runWorkers] at h
    cases h
    exact quiet_refl r
  | succ count ih =>
    intro i r r' first res h
    simp only [runWorkers] at h
    split at h
    · cases h
    · next r1 err heq =>
      exact quiet_trans (quiet_downloadChunk env file url i r r1 err heq) (ih _ _ _ _ _ h)

theorem quiet_planWorkers (r : Run) : Quiet r (planWorkers r).1 := by
  unfold planWorkers
  dsimp only
  split
  · exact ⟨rfl, [⟨⟨EventTypeMsg, "警告"⟩,
      Payload.text (MsgText.chunkTooLarge r.fd.config.ChunkSizeMB r.fd.totalSize)⟩],
      rfl, rfl, by simp [SendMessage, sumAdded]⟩
  · exact quiet_refl r

theorem quiet_fetchFile (env : FileEnv) (url path : String) (r r' : Run) (n : Int)
    (res : Option Err) (h : fetchFile env url path r n = Except.ok (r', res)) :
    Quiet r r' := by
  unfold fetchFile at h
  split at h
  · cases h; exact quiet_errorMsg r _
  · split at h
    · cases h; exact quiet_errorMsg r _
    · dsimp only at h
      split at h
      · cases h
      · next heq =>
        cases h
        exact quiet_trans (quiet_notifyProgress r 0 0) (quiet_runWorkers _ _ _ _ _ _ _ _ _ heq)
      · next heq =>
        cases h
        exact quiet_trans (quiet_trans (quiet_notifyProgress r 0 0)
          (quiet_runWorkers _ _ _ _ _ _ _ _ _ heq)) (quiet_notifyProgress _ _ _)

theorem quiet_getFileSize (env : FileEnv) (r : Run) : Quiet r (getFileSize env r).1 := by
  unfold getFileSize
  split
  · exact quiet_refl r
  · exact quiet_refl r
  · split
    · exact quiet_errorMsg r _
    · split
      · exact quiet_errorMsg r _
      · exact quiet_errorMsg r _
      · exact quiet_refl r

theorem initChunks_keeps (fuel : Nat) (fd fd' : FastDownloader)
    (h : initChunks fuel fd = Except.ok fd') :
    fd'.config = fd.config ∧ fd'.lastDownloaded = fd.lastDownloaded ∧
      fd'.totalSize = fd.totalSize ∧ fd'.downloaded = fd.downloaded := by
  unfold initChunks at h
  split at h
  · cases h
  · split at h
    · cases h
    · cases h; exact ⟨rfl, rfl, rfl, rfl⟩

/-- One file download keeps the configuration, sends no lifecycle event, and
adds to the sum of the `Added` values what it adds to `lastDownloaded`. -/
theorem quiet_startSingleDownload (fuel : Nat) (env : FileEnv) (url path : String)
    (r r' : Run) (res : Option Err)
    (h : startSingleDownload fuel env url path r = Except.ok (r', res)) : Quiet r r' := by
  unfold startSingleDownload at h
  split at h
  · next r1 err heq =>
    cases h
    have hq := quiet_getFileSize env r
    rw [heq] at hq
    exact quiet_trans hq (quiet_errorMsg _ _)
  · next r1 size heq =>
    have hq := quiet_getFileSize env r
    rw [heq] at hq
    dsimp only at h
    split at h
    · cases h
    · next fd hinit =>
      obtain ⟨hc, hl, _, _⟩ := initChunks_keeps _ _ _ hinit
      have hq2 : Quiet r1 { r1 with fd := fd } := quiet_of_eq hc rfl hl
      have hq3 := quiet_planWorkers { r1 with fd := fd }
      have hq4 := quiet_fetchFile _ _ _ _ _ _ _ h
      exact quiet_trans hq (quiet_trans hq2 (quiet_trans hq3 hq4))


/-! ## What a successful file download counts -/

theorem counted_refl (r : Run) : Counted r r :=
  ⟨rfl, [], by simp, by simp [bytesWritten]⟩

theorem counted_trans {a b c : Run} (h1 : Counted a b) (h2 : Counted b c) : Counted a c := by
  obtain ⟨ht1, w1, hw1, hd1⟩ := h1
  obtain ⟨ht2, w2, hw2, hd2⟩ := h2
  refine ⟨ht2.trans ht1, w1 ++ w2, ?_, ?_⟩
  · rw [hw2, hw1, List.append_assoc]
  · rw [bytesWritten_append, hd2, hd1]; ring

theorem counted_of_eq {r r' : Run} (h1 : r'.fd.totalSize = r.fd.totalSize)
    (h2 : r'.writes = r.writes) (h3 : r'.fd.downloaded = r.fd.downloaded) : Counted r r' :=
  ⟨h1, [], by simp [h2], by simp [bytesWritten, h3]⟩

theorem counted_notifyProgress (r : Run) (total downloaded : Int) :
    Counted r (notifyProgress r total downloaded) :=
  counted_of_eq rfl rfl rfl

theorem counted_readLoop (file : String) :
    ∀ (body : List BodyRead) (offset : Int) (r r' : Run),
      readLoop file body offset r = (r', none) → Counted r r' := by
  intro body
  induction body with
  | nil =>
    intro offset r r' h
    simp only [readLoop] at h
    cases h
    exact counted_refl r
  | cons b rest ih =>
    intro offset r r' h
    unfold readLoop at h
    split at h
    · dsimp only at h
      split at h
      · cases h
      · have hc : Counted r (notifyProgress
            { r with
              writes := r.writes ++ [⟨file, offset, b.n⟩],
              fd := { r.fd with downloaded := r.fd.downloaded + (b.n : Int) } }
            r.fd.totalSize
            (if r.fd.downloaded + (b.n : Int) > r.fd.totalSize then r.fd.totalSize
              else r.fd.downloaded + (b.n : Int))) :=
          counted_trans
            (show Counted r
                { r with
                  writes := r.writes ++ [⟨file, offset, b.n⟩],
                  fd := { r.fd with downloaded := r.fd.downloaded + (b.n : Int) } } from
              ⟨rfl, [⟨file, offset, b.n⟩], rfl, by simp [bytesWritten]⟩)
            (counted_notifyProgress _ _ _)
        split at h
        · cases h; exact hc
        · cases h
        · exact counted_trans hc (ih _ _ _ h)
    · split at h
      · cases h; exact counted_refl r
      · cases h
      · exact ih _ _ _ h

theorem counted_downloadChunk (env : FileEnv) (file url : String) (i : Nat) (r r' : Run)
    (h : downloadChunk env file i url r = Except.ok (r', none)) : Counted r r' := by
  unfold downloadChunk at h
  split at h
  · cases h
  · split at h
    · cases h; exact counted_refl r
    · split at h
      · cases h
      · cases h
      · split at h
        · cases h
        · dsimp only at h
          split at h
          · cases h
          · next heq =>
            cases h
            have h1 := counted_readLoop _ _ _ _ _ heq
            exact counted_trans (counted_trans (counted_of_eq rfl rfl rfl) h1)
              (counted_of_eq rfl rfl rfl)

/-- Once an error has been recorded, the join returns it. -/
theorem runWorkers_keeps_first (env : FileEnv) (file url : String) (e : Err) :
    ∀ (count i : Nat) (r r' : Run) (res : Option Err),
      runWorkers env file url count i r (some e) = Except.ok (r', res) → res = some e := by
  intro count
  induction count with
  | zero =>
    intro i r r' res h
    simp only [runWorkers] at h
    cases h; rfl
  | succ count ih =>
    intro i r r' res h
    simp only [runWorkers] at h
    split at h
    · cases h
    · exact ih _ _ _ _ h

theorem counted_runWorkers (env : FileEnv) (file url : String) :
    ∀ (count i : Nat) (r r' : Run),
      runWorkers env file url count i r none = Except.ok (r', none) → Counted r r' := by
  intro count
  induction count with
  | zero =>
    intro i r r' h
    simp only [runWorkers] at h
    cases h
    exact counted_refl r
  | succ count ih =>
    intro i r r' h
    simp only [runWorkers] at h
    split at h
    · cases h
    · next r1 err heq =>
      cases err with
      | some e =>
        have := runWorkers_keeps_first env file url e _ _ _ _ _ h
        cases this
      | none =>
        exact counted_trans (counted_downloadChunk env file url i r r1 heq) (ih _ _ _ h)

theorem getFileSize_ok (env : FileEnv) (r r1 : Run) (size : Int)
    (h : getFileSize env r = (r1, Except.ok size)) :
    r1 = r ∧ env.head = HeadReply.response 200 (LengthHeader.value size) := by
  unfold getFileSize at h
  split at h
  · cases h
  · cases h
  · next sc cl heq =>
    split at h
    · cases h
    · next hsc =>
      have hsc2 : sc = 200 := by simpa using hsc
      split at h
      · cases h
      · cases h
      · cases h
        exact ⟨rfl, by rw [heq, hsc2]⟩

theorem counted_planWorkers (r : Run) : Counted r (planWorkers r).1 := by
  unfold planWorkers
  dsimp only
  split
  · exact counted_of_eq rfl rfl rfl
  · exact counted_refl r

theorem fetchFile_success (env : FileEnv) (url path : String) (r r' : Run) (n : Int)
    (h : fetchFile env url path r n = Except.ok (r', none)) :
    Counted r r' ∧ r'.fd.lastDownloaded = min r'.fd.downloaded r'.fd.totalSize := by
  unfold fetchFile at h
  split at h
  · cases h
  · split at h
    · cases h
    · dsimp only at h
      split at h
      · cases h
      · cases h
      · next r2 heq =>
        cases h
        refine ⟨counted_trans (counted_trans (counted_notifyProgress r 0 0)
          (counted_runWorkers _ _ _ _ _ _ _ heq)) (counted_notifyProgress _ _ _), ?_⟩
        simp only [notifyProgress, SendMessage]
        split_ifs with hgt
        · exact (min_eq_right (le_of_lt hgt)).symm
        · exact (min_eq_left (by linarith)).symm

/-- A successful file download: the HEAD request reported the final `totalSize`,
the downloaded counter grew by the bytes written, and `lastDownloaded` is the
counter clamped to `totalSize`. -/
theorem startSingleDownload_success (fuel : Nat) (env : FileEnv) (url path : String)
    (r r' : Run) (h : startSingleDownload fuel env url path r = Except.ok (r', none)) :
    env.head = HeadReply.response 200 (LengthHeader.value r'.fd.totalSize) ∧
      (∃ ws : List WriteAt, r'.writes = r.writes ++ ws ∧
        r'.fd.downloaded = r.fd.downloaded + bytesWritten ws) ∧
      r'.fd.lastDownloaded = min r'.fd.downloaded r'.fd.totalSize := by
  unfold startSingleDownload at h
  split at h
  · cases h
  · next r1 size heq =>
    obtain ⟨rfl, hhead⟩ := getFileSize_ok env r r1 size heq
    dsimp only at h
    split at h
    · cases h
    · next fd hinit =>
      obtain ⟨_, _, ht, hd⟩ := initChunks_keeps _ _ _ hinit
      have hc1 : Counted { r1 with fd := { r1.fd with totalSize := size } }
          { r1 with fd := fd } := counted_of_eq ht rfl hd
      have hc2 := counted_planWorkers { r1 with fd := fd }
      obtain ⟨hc3, hlast⟩ := fetchFile_success _ _ _ _ _ _ h
      obtain ⟨htot, hws⟩ := counted_trans hc1 (counted_trans hc2 hc3)
      have htot2 : r'.fd.totalSize = size := htot
      rw [htot2]
      exact ⟨hhead, hws, by rw [← htot2]; exact hlast⟩


/-! ## Claims about progress reports -/

/-- The schedule in which the workers run one after the other: for a file
download that starts from `lastDownloaded = 0` and returns success, the `Added`
values of the update events it sent (the initial report, one per non-empty
read, the final report) sum to the final downloaded counter clamped to
`totalSize`, which is the final counter itself whenever the counter does not
exceed `totalSize`; and each report, taken as one step, sets `Added` to the
clamped `downloadedSoFar` minus `lastDownloaded` and then `lastDownloaded` to
the clamped `downloadedSoFar`. Other schedules are those of `runSchedule`. -/
theorem sumAdded_eq_clamped_downloaded (fuel : Nat) (env : FileEnv) (url path : String)
    (r r' : Run) (h0 : r.fd.lastDownloaded = 0)
    (h : startSingleDownload fuel env url path r = Except.ok (r', none)) :
    (∃ new : List Sent, r'.sent = r.sent ++ new ∧
      sumAdded new = min r'.fd.downloaded r'.fd.totalSize ∧
      (r'.fd.downloaded ≤ r'.fd.totalSize → sumAdded new = r'.fd.downloaded)) ∧
    (∀ (q : Run) (total downloadedSoFar : Int),
      notifyProgress q total downloadedSoFar =
        { q with
          fd := { q.fd with lastDownloaded := min downloadedSoFar total },
          sent := q.sent ++ [⟨⟨EventTypeUpdate, "update"⟩,
            Payload.update total (min downloadedSoFar total - q.fd.lastDownloaded)⟩] }) := by
  constructor
  · obtain ⟨_, new, hsent, _, hsum⟩ := quiet_startSingleDownload fuel env url path r r' none h
    obtain ⟨_, _, hlast⟩ := startSingleDownload_success fuel env url path r r' h
    refine ⟨new, hsent, ?_, ?_⟩
    · rw [hsum, h0, hlast]; ring
    · intro hle
      rw [hsum, h0, hlast, min_eq_left hle]; ring
  · intro q total d
    have hmin : (if d > total then total else d) = min d total := by
      split_ifs with hgt
      · exact (min_eq_right (le_of_lt hgt)).symm
      · exact (min_eq_left (by linarith)).symm
    simp only [notifyProgress, SendMessage, hmin]

/-- An instance of `sumAdded_eq_clamped_downloaded`: a 10-byte file in two
chunks, each range answered with its 5 bytes; the `Added` values sum to 10. -/
theorem sumAdded_eq_clamped_downloaded_witness :
    (oneFile 2 0).fd.lastDownloaded = 0 ∧
    startSingleDownload 3 halves "u" "p" (oneFile 2 0) =
      Except.ok (finalRun (startSingleDownload 3 halves "u" "p" (oneFile 2 0)) (oneFile 2 0),
        none) ∧
    ∃ new : List Sent,
      (finalRun (startSingleDownload 3 halves "u" "p" (oneFile 2 0)) (oneFile 2 0)).sent =
        (oneFile 2 0).sent ++ new ∧ sumAdded new = 10 := by
  have hrun : startSingleDownload 3 halves "u" "p" (oneFile 2 0) =
      Except.ok (finalRun (startSingleDownload 3 halves "u" "p" (oneFile 2 0)) (oneFile 2 0),
        none) := by decide
  obtain ⟨new, h1, h2, _⟩ :=
    (sumAdded_eq_clamped_downloaded 3 halves "u" "p" (oneFile 2 0) _ rfl hrun).1
  exact ⟨rfl, hrun, new, h1, h2.trans (by decide)⟩

/-- C8 (amended): whenever `startSingleDownload` returns success, after its final
report `lastDownloaded` is the downloaded counter clamped to `totalSize`, the
downloaded counter is its value before the download plus the bytes the workers
wrote (the report does not change it), and `lastDownloaded` equals `totalSize`
exactly when the counter has reached `totalSize`. -/
theorem final_report_clamps (fuel : Nat) (env : FileEnv) (url path : String) (r r' : Run)
    (h : startSingleDownload fuel env url path r = Except.ok (r', none)) :
    r'.fd.lastDownloaded = min r'.fd.downloaded r'.fd.totalSize ∧
    (∃ ws : List WriteAt, r'.writes = r.writes ++ ws ∧
      r'.fd.downloaded = r.fd.downloaded + bytesWritten ws) ∧
    (r'.fd.lastDownloaded = r'.fd.totalSize ↔ r'.fd.totalSize ≤ r'.fd.downloaded) := by
  obtain ⟨_, hws, hlast⟩ := startSingleDownload_success fuel env url path r r' h
  refine ⟨hlast, hws, ?_⟩
  rw [hlast]
  constructor
  · intro hmin
    rw [← hmin]; exact min_le_left _ _
  · intro hle
    exact min_eq_right hle

/-- A witness of C8 (amended): a 10-byte file in two chunks, each range answered
with its 5 bytes; `lastDownloaded` and the counter end at 10. -/
theorem final_report_clamps_witness :
    startSingleDownload 3 halves "u" "p" (oneFile 2 0) =
      Except.ok (finalRun (startSingleDownload 3 halves "u" "p" (oneFile 2 0)) (oneFile 2 0),
        none) ∧
    (finalRun (startSingleDownload 3 halves "u" "p" (oneFile 2 0))
      (oneFile 2 0)).fd.lastDownloaded = 10 := by
  have hrun : startSingleDownload 3 halves "u" "p" (oneFile 2 0) =
      Except.ok (finalRun (startSingleDownload 3 halves "u" "p" (oneFile 2 0)) (oneFile 2 0),
        none) := by decide
  exact ⟨hrun, (final_report_clamps 3 halves "u" "p" (oneFile 2 0) _ hrun).1.trans (by decide)⟩


/-! ## The lifecycle of a run over several files -/

theorem lifecycle_cons_startOne (url : String) (i n : Nat) (l : List Sent) :
    lifecycle (startOneEvent url i n :: l) = startOneEvent url i n :: lifecycle l := rfl

theorem lifecycle_cons_endOne (url : String) (i n : Nat) (l : List Sent) :
    lifecycle (endOneEvent url i n :: l) = endOneEvent url i n :: lifecycle l := rfl

theorem lifecycle_nil : lifecycle [] = [] := rfl

/-- When every remaining file downloads successfully, the loop of `StartDownload`
returns no error and sends, as lifecycle events, StartOne and EndOne for each
remaining file in list order. -/
theorem downloadAll_ok (fuel : Nat) (envs : Nat → FileEnv) (cfg : DownloadConfig) :
    ∀ (rest : List String) (i : Nat) (r : Run), r.fd.config = cfg →
      (∀ (j : Nat) (url : String), rest.get? j = some url →
        ∃ path, cfg.SavePaths.get? (i + j) = some path ∧
          ∀ r₁ : Run, r₁.fd.config = cfg →
            ∃ r₂, startSingleDownload fuel (envs (i + j)) url path r₁ = Except.ok (r₂, none)) →
      ∃ r', downloadAll fuel envs rest i r = Except.ok (r', none) ∧ r'.fd.config = cfg ∧
        ∃ new : List Sent, r'.sent = r.sent ++ new ∧
          lifecycle new = filePairs cfg.URLs.length rest i := by
  intro rest
  induction rest with
  | nil =>
    intro i r hcfg _
    exact ⟨r, rfl, hcfg, [], by simp, rfl⟩
  | cons url rest ih =>
    intro i r hcfg hall
    obtain ⟨path, hpath, hrun⟩ := hall 0 url rfl
    simp only [Nat.add_zero] at hpath hrun
    obtain ⟨r₂, hr₂⟩ := hrun
      (SendMessage { r with fd := { r.fd with currentURLIndex := (i : Int) } }
        ⟨EventTypeStartOne, "开始一个下载"⟩
        (Payload.one url ((i : Int) + 1) (r.fd.config.URLs.length : Int))) hcfg
    obtain ⟨hc₂, new₂, hs₂, hl₂, _⟩ := quiet_startSingleDownload _ _ _ _ _ _ _ hr₂
    have hc₂' : r₂.fd.config = cfg := hc₂.trans hcfg
    obtain ⟨r', hr', hc', new', hs', hl'⟩ := ih (i + 1)
      (SendMessage { r₂ with fd := resetState r₂.fd } ⟨EventTypeEndOne, "结束一个下载"⟩
        (Payload.one url ((i : Int) + 1) (r₂.fd.config.URLs.length : Int)))
      hc₂'
      (fun j u hj => by
        have := hall (j + 1) u hj
        rwa [show i + (j + 1) = i + 1 + j by omega] at this)
    refine ⟨r', ?_, hc', ?_⟩
    · have hp : r.fd.config.SavePaths.get? i = some path := by rw [hcfg]; exact hpath
      simp only [downloadAll, hp]
      rw [hr₂]
      exact hr'
    · refine ⟨[startOneEvent url i cfg.URLs.length] ++ new₂ ++
        [endOneEvent url i cfg.URLs.length] ++ new', ?_, ?_⟩
      · rw [hs', ← hcfg]
        simp only [SendMessage, resetState, hs₂, hc₂, startOneEvent, endOneEvent,
          List.append_assoc]
      · simp only [List.append_assoc, List.cons_append, List.nil_append, lifecycle_cons_startOne,
          lifecycle_cons_endOne, lifecycle_append, hl₂, hl', filePairs]

/-- When the files `pre` download successfully and the next file `url` fails
with error `e`, the loop of `StartDownload` returns `e`; its lifecycle events
are StartOne and EndOne for each file of `pre` and then the StartOne of `url`,
and its last message is the error message for `url`. -/
theorem downloadAll_fail (fuel : Nat) (envs : Nat → FileEnv) (cfg : DownloadConfig)
    (url : String) (post : List String) (e : Err) :
    ∀ (pre : List String) (i : Nat) (r : Run), r.fd.config = cfg →
      (∀ (j : Nat) (u : String), pre.get? j = some u →
        ∃ path, cfg.SavePaths.get? (i + j) = some path ∧
          ∀ r₁ : Run, r₁.fd.config = cfg →
            ∃ r₂, startSingleDownload fuel (envs (i + j)) u path r₁ = Except.ok (r₂, none)) →
      (∃ path, cfg.SavePaths.get? (i + pre.length) = some path ∧
        ∀ r₁ : Run, r₁.fd.config = cfg →
          ∃ r₂, startSingleDownload fuel (envs (i + pre.length)) url path r₁
            = Except.ok (r₂, some e)) →
      ∃ r', downloadAll fuel envs (pre ++ url :: post) i r = Except.ok (r', some e) ∧
        ∃ new : List Sent, r'.sent = r.sent ++ new ∧
          lifecycle new = filePairs cfg.URLs.length pre i ++
            [startOneEvent url (i + pre.length) cfg.URLs.length] ∧
          new.getLast? = some ⟨⟨EventTypeMsg, "错误"⟩, Payload.text (MsgText.fileFailed url e)⟩ := by
  intro pre
  induction pre with
  | nil =>
    intro i r hcfg _ hfail
    obtain ⟨path, hpath, hrun⟩ := hfail
    simp only [List.length_nil, Nat.add_zero] at hpath hrun
    obtain ⟨r₂, hr₂⟩ := hrun
      (SendMessage { r with fd := { r.fd with currentURLIndex := (i : Int) } }
        ⟨EventTypeStartOne, "开始一个下载"⟩
        (Payload.one url ((i : Int) + 1) (r.fd.config.URLs.length : Int))) hcfg
    obtain ⟨hc₂, new₂, hs₂, hl₂, _⟩ := quiet_startSingleDownload _ _ _ _ _ _ _ hr₂
    refine ⟨errorMsg r₂ (MsgText.fileFailed url e), ?_, ?_⟩
    · have hp : r.fd.config.SavePaths.get? i = some path := by rw [hcfg]; exact hpath
      simp only [List.nil_append, downloadAll, hp]
      rw [hr₂]
    · refine ⟨[startOneEvent url i cfg.URLs.length] ++ new₂ ++
        [⟨⟨EventTypeMsg, "错误"⟩, Payload.text (MsgText.fileFailed url e)⟩], ?_, ?_, ?_⟩
      · rw [← hcfg]
        simp only [errorMsg, SendMessage, hs₂, startOneEvent, List.append_assoc]
      · simp only [List.append_assoc, List.cons_append, List.nil_append, lifecycle_cons_startOne,
          lifecycle_append, hl₂, filePairs, List.length_nil, Nat.add_zero]
        rfl
      · exact List.getLast?_concat _
  | cons u pre ih =>
    intro i r hcfg hall hfail
    obtain ⟨path, hpath, hrun⟩ := hall 0 u rfl
    simp only [Nat.add_zero] at hpath hrun
    obtain ⟨r₂, hr₂⟩ := hrun
      (SendMessage { r with fd := { r.fd with currentURLIndex := (i : Int) } }
        ⟨EventTypeStartOne, "开始一个下载"⟩
        (Payload.one u ((i : Int) + 1) (r.fd.config.URLs.length : Int))) hcfg
    obtain ⟨hc₂, new₂, hs₂, hl₂, _⟩ := quiet_startSingleDownload _ _ _ _ _ _ _ hr₂
    have hc₂' : r₂.fd.config = cfg := hc₂.trans hcfg
    obtain ⟨r', hr', new', hs', hl', hlast'⟩ := ih (i + 1)
      (SendMessage { r₂ with fd := resetState r₂.fd } ⟨EventTypeEndOne, "结束一个下载"⟩
        (Payload.one u ((i : Int) + 1) (r₂.fd.config.URLs.length : Int)))
      hc₂'
      (fun j v hj => by
        have := hall (j + 1) v hj
        rwa [show i + (j + 1) = i + 1 + j by omega] at this)
      (by
        rwa [show i + (u :: pre).length = i + 1 + pre.length by
          simp only [List.length_cons]; omega] at hfail)
    refine ⟨r', ?_, ?_⟩
    · have hp : r.fd.config.SavePaths.get? i = some path := by rw [hcfg]; exact hpath
      simp only [List.cons_append, downloadAll, hp]
      rw [hr₂]
      exact hr'
    · have hne : new' ≠ [] := by
        intro hnil
        rw [hnil] at hlast'
        cases hlast'
      refine ⟨[startOneEvent u i cfg.URLs.length] ++ new₂ ++
        [endOneEvent u i cfg.URLs.length] ++ new', ?_, ?_, ?_⟩
      · rw [hs', ← hcfg]
        simp only [SendMessage, resetState, hs₂, hc₂, startOneEvent, endOneEvent,
          List.append_assoc]
      · simp only [List.append_assoc, List.cons_append, List.nil_append, lifecycle_cons_startOne,
          lifecycle_cons_endOne, lifecycle_append, hl₂, hl', filePairs, List.length_cons]
        rw [show i + (pre.length + 1) = i + 1 + pre.length by omega]
      · rw [List.getLast?_append, hlast']
        rfl


theorem countType_append (t : EventType) (a b : List Sent) :
    countType t (a ++ b) = countType t a + countType t b := by
  simp [countType]

theorem countType_lifecycle (t : EventType) (h1 : t ≠ EventTypeUpdate) (h2 : t ≠ EventTypeMsg)
    (l : List Sent) : countType t (lifecycle l) = countType t l := by
  induction l with
  | nil => rfl
  | cons m l ih =>
    obtain ⟨⟨ty, name⟩, data⟩ := m
    have hc : ∀ x : List Sent, countType t (⟨⟨ty, name⟩, data⟩ :: x) =
        (if ty = t then 1 else 0) + countType t x := by
      intro x
      simp only [countType, List.filter_cons]
      split_ifs <;> simp_all [Nat.add_comm]
    cases ty <;>
      simp_all [lifecycle, isLifecycle, List.filter_cons, hc, Ne.symm h1, Ne.symm h2]

theorem countType_filePairs (n : Nat) :
    ∀ (urls : List String) (i : Nat),
      countType EventTypeStart (filePairs n urls i) = 0 ∧
      countType EventTypeEnd (filePairs n urls i) = 0 ∧
      countType EventTypeStartOne (filePairs n urls i) = urls.length ∧
      countType EventTypeEndOne (filePairs n urls i) = urls.length := by
  intro urls
  induction urls with
  | nil => intro i; exact ⟨rfl, rfl, rfl, rfl⟩
  | cons u urls ih =>
    intro i
    obtain ⟨h1, h2, h3, h4⟩ := ih (i + 1)
    have e : filePairs n (u :: urls) i =
        [startOneEvent u i n, endOneEvent u i n] ++ filePairs n urls (i + 1) := rfl
    rw [e]
    simp only [countType_append, h1, h2, h3, h4, List.length_cons]
    refine ⟨rfl, rfl, ?_, ?_⟩
    · have : countType EventTypeStartOne [startOneEvent u i n, endOneEvent u i n] = 1 := rfl
      omega
    · have : countType EventTypeEndOne [startOneEvent u i n, endOneEvent u i n] = 1 := rfl
      omega


/-- The server `halves` lets every download with 2 threads and no hint succeed,
whatever the state of the downloader before it. -/
theorem halves_succeeds (url path : String) (r₁ : Run)
    (h1 : r₁.fd.config.ThreadCount = 2) (h2 : r₁.fd.config.ChunkSizeMB = 0) :
    ∃ r₂, startSingleDownload 3 halves url path r₁ = Except.ok (r₂, none) := by
  have hd : Int.tdiv 10 2 = 5 := by decide
  simp [startSingleDownload, getFileSize, halves, serving, initChunks, initChunkSize, h1, h2,
    hd, initChunksLoop, planWorkers, fetchFile, runWorkers, downloadChunk, readLoop, body,
    notifyProgress, SendMessage, markDone]

theorem SendMessage_fd (r : Run) (event : Event) (data : Payload) :
    (SendMessage r event data).fd = r.fd := rfl

/-! ## Claims about the lifecycle events -/

/-- C9: for a configuration with as many save paths as URLs in which every file
download succeeds, `StartDownload` returns no error, and the lifecycle events it
sends are, in order, Start, then StartOne and EndOne for each URL in list order
with its 1-based index and the number of URLs, then End; Start and End are
sent exactly once each. -/
theorem StartDownload_lifecycle (fuel : Nat) (envs : Nat → FileEnv) (r : Run)
    (hlen : r.fd.config.URLs.length = r.fd.config.SavePaths.length)
    (hok : ∀ (i : Nat) (url path : String) (r₁ : Run),
      r.fd.config.URLs.get? i = some url → r.fd.config.SavePaths.get? i = some path →
      r₁.fd.config = r.fd.config →
      ∃ r₂, startSingleDownload fuel (envs i) url path r₁ = Except.ok (r₂, none)) :
    ∃ r', StartDownload fuel envs r = Except.ok (r', none) ∧
      ∃ new : List Sent, r'.sent = r.sent ++ new ∧
        lifecycle new = [startEvent] ++
          filePairs r.fd.config.URLs.length r.fd.config.URLs 0 ++ [endEvent] ∧
        countType EventTypeStart new = 1 ∧ countType EventTypeEnd new = 1 := by
  obtain ⟨r₁, hr₁, _, new₁, hs₁, hl₁⟩ := downloadAll_ok fuel envs r.fd.config
    r.fd.config.URLs 0 (SendMessage r ⟨EventTypeStart, "开始下载"⟩ Payload.empty) rfl
    (fun j url hj => by
      have hj' : j < r.fd.config.URLs.length := by
        rw [List.get?_eq_getElem?] at hj
        exact (List.getElem?_eq_some.mp hj).1
      have hp : j < r.fd.config.SavePaths.length := by omega
      refine ⟨r.fd.config.SavePaths[j], ?_, ?_⟩
      · rw [Nat.zero_add, List.get?_eq_getElem?]
        exact List.getElem?_eq_getElem hp
      · intro r₁ hc
        rw [Nat.zero_add]
        exact hok j url _ r₁ hj (by rw [List.get?_eq_getElem?]; exact List.getElem?_eq_getElem hp) hc)
  have hlife : lifecycle ([startEvent] ++ new₁ ++ [endEvent]) = [startEvent] ++
      filePairs r.fd.config.URLs.length r.fd.config.URLs 0 ++ [endEvent] := by
    rw [lifecycle_append, lifecycle_append, hl₁]
    rfl
  refine ⟨SendMessage r₁ ⟨EventTypeEnd, "结束所有下载"⟩ Payload.empty, ?_,
    [startEvent] ++ new₁ ++ [endEvent], ?_, hlife, ?_, ?_⟩
  · have hne : ¬ (r.fd.config.URLs.length ≠ r.fd.config.SavePaths.length) := by
      simpa using hlen
    simp only [StartDownload, hne, if_false, SendMessage_fd]
    rw [hr₁]
  · simp only [SendMessage, hs₁, startEvent, endEvent, List.append_assoc]
  · rw [← countType_lifecycle EventTypeStart (by decide) (by decide), hlife]
    simp only [countType_append, (countType_filePairs _ _ _).1]
    rfl
  · rw [← countType_lifecycle EventTypeEnd (by decide) (by decide), hlife]
    simp only [countType_append, (countType_filePairs _ _ _).2.1]
    rfl

/-- A witness of C9: three files, each served by `halves`. -/
theorem StartDownload_lifecycle_witness :
    ∃ r', StartDownload 3 (fun _ => halves)
        (NewFastDownloader ⟨["a", "b", "c"], 2, 0, ["x", "y", "z"]⟩) = Except.ok (r', none) ∧
      ∃ new : List Sent, r'.sent = [] ++ new ∧
        lifecycle new = [startEvent, startOneEvent "a" 0 3, endOneEvent "a" 0 3,
          startOneEvent "b" 1 3, endOneEvent "b" 1 3, startOneEvent "c" 2 3,
          endOneEvent "c" 2 3, endEvent] := by
  obtain ⟨r', h1, new, h2, h3, _⟩ := StartDownload_lifecycle 3 (fun _ => halves)
    (NewFastDownloader ⟨["a", "b", "c"], 2, 0, ["x", "y", "z"]⟩) rfl
    (fun i url path r₁ _ _ hc => halves_succeeds url path r₁ (by rw [hc]; rfl) (by rw [hc]; rfl))
  exact ⟨r', h1, new, h2, h3⟩

/-- C10: for a configuration with as many save paths as URLs, if the files
before position `k` download successfully and the download of the file at
position `k` fails with error `e`, then `StartDownload` returns `e`, its last
message is the error message for that file, and its lifecycle events are
exactly Start, StartOne and EndOne for each file before `k`, and the StartOne
of file `k`: no EndOne for file `k`, no StartOne for a later file, no End. -/
theorem StartDownload_aborts_on_failure (fuel : Nat) (envs : Nat → FileEnv) (r : Run)
    (k : Nat) (url path : String) (e : Err)
    (hlen : r.fd.config.URLs.length = r.fd.config.SavePaths.length)
    (hurl : r.fd.config.URLs.get? k = some url)
    (hpath : r.fd.config.SavePaths.get? k = some path)
    (hbefore : ∀ (i : Nat) (u p : String) (r₁ : Run), i < k →
      r.fd.config.URLs.get? i = some u → r.fd.config.SavePaths.get? i = some p →
      r₁.fd.config = r.fd.config →
      ∃ r₂, startSingleDownload fuel (envs i) u p r₁ = Except.ok (r₂, none))
    (hfail : ∀ r₁ : Run, r₁.fd.config = r.fd.config →
      ∃ r₂, startSingleDownload fuel (envs k) url path r₁ = Except.ok (r₂, some e)) :
    ∃ r', StartDownload fuel envs r = Except.ok (r', some e) ∧
      ∃ new : List Sent, r'.sent = r.sent ++ new ∧
        new.getLast? = some ⟨⟨EventTypeMsg, "错误"⟩, Payload.text (MsgText.fileFailed url e)⟩ ∧
        lifecycle new = [startEvent] ++
          filePairs r.fd.config.URLs.length (r.fd.config.URLs.take k) 0 ++
          [startOneEvent url k r.fd.config.URLs.length] ∧
        countType EventTypeStartOne new = k + 1 ∧ countType EventTypeEndOne new = k ∧
        countType EventTypeEnd new = 0 := by
  have hk : k < r.fd.config.URLs.length := by
    rw [List.get?_eq_getElem?] at hurl
    exact (List.getElem?_eq_some.mp hurl).1
  have hget : r.fd.config.URLs[k] = url := by
    rw [List.get?_eq_getElem?] at hurl
    obtain ⟨_, h⟩ := List.getElem?_eq_some.mp hurl
    exact h
  have hsplit : r.fd.config.URLs =
      r.fd.config.URLs.take k ++ url :: r.fd.config.URLs.drop (k + 1) := by
    conv_lhs => rw [← List.take_append_drop k r.fd.config.URLs]
    rw [List.drop_eq_getElem_cons hk, hget]
  have htake : (r.fd.config.URLs.take k).length = k := by
    rw [List.length_take]; omega
  obtain ⟨r₁, hr₁, new₁, hs₁, hl₁, hlast₁⟩ := downloadAll_fail fuel envs r.fd.config url
    (r.fd.config.URLs.drop (k + 1)) e (r.fd.config.URLs.take k) 0
    (SendMessage r ⟨EventTypeStart, "开始下载"⟩ Payload.empty) rfl
    (fun j u hj => by
      rw [List.get?_eq_getElem?] at hj
      have hjk : j < k := by
        have := (List.getElem?_eq_some.mp hj).1
        omega
      have hju : r.fd.config.URLs.get? j = some u := by
        rw [List.get?_eq_getElem?, ← hj, List.getElem?_take_of_lt hjk]
      have hp : j < r.fd.config.SavePaths.length := by omega
      refine ⟨r.fd.config.SavePaths[j], ?_, ?_⟩
      · rw [Nat.zero_add, List.get?_eq_getElem?]
        exact List.getElem?_eq_getElem hp
      · intro r₁ hc
        rw [Nat.zero_add]
        exact hbefore j u _ r₁ hjk hju
          (by rw [List.get?_eq_getElem?]; exact List.getElem?_eq_getElem hp) hc)
    ⟨path, by rw [Nat.zero_add, htake]; exact hpath, by rw [Nat.zero_add, htake]; exact hfail⟩
  rw [Nat.zero_add, htake] at hl₁
  have hlife : lifecycle ([startEvent] ++ new₁) = [startEvent] ++
      filePairs r.fd.config.URLs.length (r.fd.config.URLs.take k) 0 ++
      [startOneEvent url k r.fd.config.URLs.length] := by
    rw [lifecycle_append, hl₁, List.append_assoc]
    rfl
  have hne : new₁ ≠ [] := by
    intro hnil
    rw [hnil] at hlast₁
    cases hlast₁
  obtain ⟨c1, c2, c3, c4⟩ := countType_filePairs r.fd.config.URLs.length
    (r.fd.config.URLs.take k) 0
  refine ⟨r₁, ?_, [startEvent] ++ new₁, ?_, ?_, hlife, ?_, ?_, ?_⟩
  · have hne : ¬ (r.fd.config.URLs.length ≠ r.fd.config.SavePaths.length) := by
      simpa using hlen
    simp only [StartDownload, hne, if_false, SendMessage_fd]
    rw [← hsplit] at hr₁
    rw [hr₁]
  · simp only [SendMessage, startEvent, List.append_assoc] at hs₁ ⊢
    exact hs₁
  · rw [List.getLast?_append, hlast₁]
    rfl
  · rw [← countType_lifecycle EventTypeStartOne (by decide) (by decide), hlife]
    simp only [countType_append, c3, htake]
    have h1 : countType EventTypeStartOne [startEvent] = 0 := rfl
    have h2 : countType EventTypeStartOne [startOneEvent url k r.fd.config.URLs.length] = 1 :=
      rfl
    omega
  · rw [← countType_lifecycle EventTypeEndOne (by decide) (by decide), hlife]
    simp only [countType_append, c4, htake]
    have h1 : countType EventTypeEndOne [startEvent] = 0 := rfl
    have h2 : countType EventTypeEndOne [startOneEvent url k r.fd.config.URLs.length] = 0 :=
      rfl
    omega
  · rw [← countType_lifecycle EventTypeEnd (by decide) (by decide), hlife]
    simp only [countType_append, c2]
    rfl

/-- A witness of C10: three files, the first served by `halves`, the HEAD
request of the second answered with status 404. -/
theorem StartDownload_aborts_on_failure_witness :
    ∃ r', StartDownload 3
        (fun i => if i = 1 then
          { halves with head := HeadReply.response 404 LengthHeader.missing } else halves)
        (NewFastDownloader ⟨["a", "b", "c"], 2, 0, ["x", "y", "z"]⟩) =
          Except.ok (r', some (Err.sizeFailed (Err.httpError 404))) ∧
      ∃ new : List Sent, r'.sent = [] ++ new ∧
        new.getLast? = some ⟨⟨EventTypeMsg, "错误"⟩,
          Payload.text (MsgText.fileFailed "b" (Err.sizeFailed (Err.httpError 404)))⟩ ∧
        lifecycle new = [startEvent, startOneEvent "a" 0 3, endOneEvent "a" 0 3,
          startOneEvent "b" 1 3] := by
  obtain ⟨r', h1, new, h2, h3, h4, _⟩ := StartDownload_aborts_on_failure 3
    (fun i => if i = 1 then
      { halves with head := HeadReply.response 404 LengthHeader.missing } else halves)
    (NewFastDownloader ⟨["a", "b", "c"], 2, 0, ["x", "y", "z"]⟩) 1 "b" "y"
    (Err.sizeFailed (Err.httpError 404)) rfl rfl rfl
    (fun i u p r₁ hi _ _ hc => by
      have hi0 : i = 0 := by omega
      subst hi0
      exact halves_succeeds u p r₁ (by rw [hc]; rfl) (by rw [hc]; rfl))
    (fun r₁ _ => ⟨_, rfl⟩)
  exact ⟨r', h1, new, h2, h3, h4⟩

/-! ## The precondition on the numbers of URLs and save paths -/

theorem isExternal_ne_countMismatch (e : Err) (h : e.isExternal) : e ≠ Err.countMismatch := by
  intro he
  rw [he] at h
  exact h

theorem readLoop_error_external (file : String) :
    ∀ (body : List BodyRead) (offset : Int) (r r' : Run) (e : Err),
      (∀ b ∈ body, (∀ e, b.writeErr = some e → e.isExternal) ∧
        (∀ e, b.err = ReadErr.failed e → e.isExternal)) →
      readLoop file body offset r = (r', some e) → e.isExternal := by
  intro body
  induction body with
  | nil =>
    intro offset r r' e _ h
    simp only [readLoop] at h
    cases h
  | cons b rest ih =>
    intro offset r r' e hext h
    obtain ⟨hw, hr⟩ := hext b (List.mem_cons_self _ _)
    have hrest : ∀ b ∈ rest, (∀ e, b.writeErr = some e → e.isExternal) ∧
        (∀ e, b.err = ReadErr.failed e → e.isExternal) :=
      fun b hb => hext b (List.mem_cons_of_mem _ hb)
    unfold readLoop at h
    split at h
    · dsimp only at h
      split at h
      · next we hwe =>
        cases h
        exact hw _ hwe
      · split at h
        · cases h
        · next err herr =>
          cases h
          exact hr _ herr
        · exact ih _ _ _ _ hrest h
    · split at h
      · cases h
      · next err herr =>
        cases h
        exact hr _ herr
      · exact ih _ _ _ _ hrest h

theorem downloadChunk_error_ne_countMismatch (env : FileEnv) (hext : ExternalErrors env)
    (file url : String) (i : Nat) (r r' : Run) (e : Err)
    (h : downloadChunk env file i url r = Except.ok (r', some e)) : e ≠ Err.countMismatch := by
  have hi := hext i
  unfold downloadChunk at h
  split at h
  · cases h
  · split at h
    · cases h
    · split at h
      · next err heq =>
        rw [heq] at hi
        cases h
        exact isExternal_ne_countMismatch _ hi
      · next err heq =>
        rw [heq] at hi
        cases h
        exact isExternal_ne_countMismatch _ hi
      · next sc body heq =>
        rw [heq] at hi
        split at h
        · cases h
          intro hne
          cases hne
        · dsimp only at h
          split at h
          · next hrl =>
            cases h
            exact isExternal_ne_countMismatch _ (readLoop_error_external _ _ _ _ _ _ hi hrl)
          · cases h

theorem runWorkers_error_ne_countMismatch (env : FileEnv) (hext : ExternalErrors env)
    (file url : String) :
    ∀ (count i : Nat) (r r' : Run) (first : Option Err) (e : Err),
      (∀ e₀, first = some e₀ → e₀ ≠ Err.countMismatch) →
      runWorkers env file url count i r first = Except.ok (r', some e) →
      e ≠ Err.countMismatch := by
  intro count
  induction count with
  | zero =>
    intro i r r' first e hfirst h
    simp only [runWorkers] at h
    cases h
    exact hfirst e rfl
  | succ count ih =>
    intro i r r' first e hfirst h
    simp only [runWorkers] at h
    split at h
    · cases h
    · next r1 err heq =>
      refine ih _ _ _ _ _ ?_ h
      intro e₀ he₀
      cases first with
      | some f =>
        simp only [Option.isSome_some, if_true] at he₀
        exact hfirst e₀ he₀
      | none =>
        simp only [Option.isSome_none] at he₀
        have he₀' : err = some e₀ := by simpa using he₀
        rw [he₀'] at heq
        exact downloadChunk_error_ne_countMismatch env hext _ _ _ _ _ _ heq

theorem startSingleDownload_error_ne_countMismatch (fuel : Nat) (env : FileEnv)
    (hext : ExternalErrors env) (url path : String) (r r' : Run) (e : Err)
    (h : startSingleDownload fuel env url path r = Except.ok (r', some e)) :
    e ≠ Err.countMismatch := by
  unfold startSingleDownload at h
  split at h
  · cases h
    intro hne
    cases hne
  · dsimp only at h
    split at h
    · cases h
    · unfold fetchFile at h
      split at h
      · cases h
        intro hne
        cases hne
      · split at h
        · cases h
          intro hne
          cases hne
        · dsimp only at h
          split at h
          · cases h
          · next hrw =>
            cases h
            exact runWorkers_error_ne_countMismatch env hext _ _ _ _ _ _ _ _
              (fun _ hn => by cases hn) hrw
          · cases h

theorem downloadAll_error_ne_countMismatch (fuel : Nat) (envs : Nat → FileEnv)
    (hext : ∀ i, ExternalErrors (envs i)) :
    ∀ (rest : List String) (i : Nat) (r r' : Run) (e : Err),
      downloadAll fuel envs rest i r = Except.ok (r', some e) → e ≠ Err.countMismatch := by
  intro rest
  induction rest with
  | nil =>
    intro i r r' e h
    simp only [downloadAll] at h
    cases h
  | cons url rest ih =>
    intro i r r' e h
    simp only [downloadAll] at h
    split at h
    · cases h
    · split at h
      · cases h
      · next hrun =>
        cases h
        exact startSingleDownload_error_ne_countMismatch fuel _ (hext i) _ _ _ _ _ hrun
      · exact ih _ _ _ _ h

/-- C11: when the numbers of URLs and of save paths differ, `StartDownload`
returns the mismatch error and its whole effect is one Msg error event appended
to the log: the downloader state, the writes and the requests are unchanged,
whatever the outside would have answered. When the numbers are equal and the
errors of the outside are made outside the program, any error `StartDownload`
returns is not the mismatch error. -/
theorem StartDownload_count_mismatch (fuel : Nat) (envs : Nat → FileEnv) (r : Run) :
    (r.fd.config.URLs.length ≠ r.fd.config.SavePaths.length →
      StartDownload fuel envs r =
        Except.ok ({ r with sent := r.sent ++
            [⟨⟨EventTypeMsg, "错误"⟩, Payload.text MsgText.countMismatch⟩] },
          some Err.countMismatch)) ∧
    (r.fd.config.URLs.length = r.fd.config.SavePaths.length →
      (∀ i, ExternalErrors (envs i)) →
      ∀ (r' : Run) (e : Err), StartDownload fuel envs r = Except.ok (r', some e) →
        e ≠ Err.countMismatch) := by
  constructor
  · intro hne
    simp only [StartDownload, hne, if_true, ne_eq, not_false_eq_true, errorMsg, SendMessage]
  · intro heq hext r' e h
    have hne : ¬ (r.fd.config.URLs.length ≠ r.fd.config.SavePaths.length) := by simpa using heq
    simp only [StartDownload, hne, if_false] at h
    split at h
    · cases h
    · next hrun =>
      cases h
      exact downloadAll_error_ne_countMismatch fuel envs hext _ _ _ _ _ hrun
    · cases h

theorem externalErrors_halves : ExternalErrors halves := by
  intro i
  simp [halves, serving, body]

/-- A witness of C11: two URLs with one save path give the mismatch error and
one message; one URL with one save path and a HEAD reply of status 404 gives an
error that is not the mismatch error. -/
theorem StartDownload_count_mismatch_witness :
    StartDownload 3 (fun _ => halves) (NewFastDownloader ⟨["a", "b"], 2, 0, ["x"]⟩) =
      Except.ok ({ NewFastDownloader ⟨["a", "b"], 2, 0, ["x"]⟩ with
          sent := [⟨⟨EventTypeMsg, "错误"⟩, Payload.text MsgText.countMismatch⟩] },
        some Err.countMismatch) ∧
    Err.sizeFailed (Err.httpError 404) ≠ Err.countMismatch :=
  ⟨(StartDownload_count_mismatch 3 (fun _ => halves)
      (NewFastDownloader ⟨["a", "b"], 2, 0, ["x"]⟩)).1 (by decide),
    (StartDownload_count_mismatch 3
      (fun _ => { halves with head := HeadReply.response 404 LengthHeader.missing })
      (NewFastDownloader ⟨["a"], 2, 0, ["x"]⟩)).2 rfl
      (fun _ i => externalErrors_halves i) _ _ rfl⟩


/-! ## Resuming after a failed run -/

/-- The traced loop computes what the loop of `StartDownload` computes. -/
theorem downloadAllTraced_fst (fuel : Nat) (envs : Nat → FileEnv) :
    ∀ (rest : List String) (i : Nat) (r : Run),
      (downloadAllTraced fuel envs rest i r).1 = downloadAll fuel envs rest i r := by
  intro rest
  induction rest with
  | nil => intro i r; rfl
  | cons url rest ih =>
    intro i r
    simp only [downloadAllTraced, downloadAll]
    split
    · rfl
    · split
      · rfl
      · rfl
      · exact ih _ _

/-- In the loop of `StartDownload` entered with the per-file state at its
initial value, the state at every StartOne event is at its initial value. -/
theorem downloadAllTraced_initial (fuel : Nat) (envs : Nat → FileEnv) :
    ∀ (rest : List String) (i : Nat) (r : Run), perFileInitial r.fd →
      ∀ fd ∈ (downloadAllTraced fuel envs rest i r).2, perFileInitial fd := by
  intro rest
  induction rest with
  | nil =>
    intro i r _ fd hfd
    simp [downloadAllTraced] at hfd
  | cons url rest ih =>
    intro i r hr fd hfd
    simp only [downloadAllTraced] at hfd
    split at hfd
    · simp at hfd
    · have h0 : perFileInitial (SendMessage
          { r with fd := { r.fd with currentURLIndex := (i : Int) } }
          ⟨EventTypeStartOne, "开始一个下载"⟩
          (Payload.one url ((i : Int) + 1) (r.fd.config.URLs.length : Int))).fd := hr
      split at hfd
      · simp only [List.mem_singleton] at hfd
        rw [hfd]; exact h0
      · simp only [List.mem_singleton] at hfd
        rw [hfd]; exact h0
      · simp only [List.mem_cons] at hfd
        rcases hfd with hfd | hfd
        · rw [hfd]; exact h0
        · exact ih _ _ ⟨rfl, rfl, rfl, rfl⟩ fd hfd

/-- A call of `StartDownload` made with the per-file state at its initial value
begins every file's attempt with the per-file state at its initial value. -/
theorem attemptStates_initial (fuel : Nat) (envs : Nat → FileEnv) (r : Run)
    (hr : perFileInitial r.fd) : ∀ fd ∈ attemptStates fuel envs r, perFileInitial fd := by
  intro fd hfd
  unfold attemptStates at hfd
  split at hfd
  · simp at hfd
  · exact downloadAllTraced_initial fuel envs _ _
      (SendMessage r ⟨EventTypeStart, "开始下载"⟩ Payload.empty) hr fd hfd

/-- C12 (the code at the failing input): the download of one 10-byte file
fails after 4 bytes with a read error; `StartDownload` returns that error
without resetting the per-file state. A `ResumeDownload` on the same downloader
then sends StartOne while `downloaded = 4`, `lastDownloaded = 4`,
`totalSize = 10` and one chunk is planned, and the resumed download, served
whole, reports the `Added` values -4, 10 and 0. -/
theorem ResumeDownload_starts_from_stale_state :
    StartDownload 2 (fun _ => breaksAfterFour) (oneFile 1 0) =
      Except.ok (finalRun (StartDownload 2 (fun _ => breaksAfterFour) (oneFile 1 0))
        (oneFile 1 0), some (Err.external 1)) ∧
    attemptStates 2 (fun _ => whole)
        (finalRun (StartDownload 2 (fun _ => breaksAfterFour) (oneFile 1 0)) (oneFile 1 0)) =
      [{ config := ⟨["u"], 1, 0, ["p"]⟩, totalSize := 10, downloaded := 4,
         lastDownloaded := 4, chunks := [⟨0, 9, false⟩], currentURLIndex := 0 }] ∧
    (ResumeDownload 2 (fun _ => whole)
        (finalRun (StartDownload 2 (fun _ => breaksAfterFour) (oneFile 1 0))
          (oneFile 1 0))).map
      (fun x => (x.2, x.1.sent.drop 5)) =
      Except.ok (none,
        [startEvent, startOneEvent "u" 0 1,
         ⟨⟨EventTypeUpdate, "update"⟩, Payload.update 0 (-4)⟩,
         ⟨⟨EventTypeUpdate, "update"⟩, Payload.update 10 10⟩,
         ⟨⟨EventTypeUpdate, "update"⟩, Payload.update 10 0⟩,
         endOneEvent "u" 0 1, endEvent]) := by
  refine ⟨by decide, by decide, by decide⟩


/-! ## Pausing -/

theorem PauseDownload_run (s : Session) : (PauseDownload s).run = s.run := by
  unfold PauseDownload
  split <;> rfl

/-- With the context the workers are given, the read loop does what the read
loop without a context does, whenever and however often `PauseDownload` is
called: it is never left through `ctx.Done()`. -/
theorem readLoopCtx_workerContext (file : String) (pauses : Nat → Bool) :
    ∀ (body : List BodyRead) (k : Nat) (offset : Int) (s : Session),
      (readLoopCtx workerContext file pauses body k offset s).1.run
          = (readLoop file body offset s.run).1 ∧
        (readLoopCtx workerContext file pauses body k offset s).2
          = exitOf (readLoop file body offset s.run).2 := by
  intro body
  induction body with
  | nil =>
    intro k offset s
    by_cases hk : pauses k = true <;>
      simp [readLoopCtx, readLoop, workerContext, ctxDone, exitOf, hk, PauseDownload_run]
  | cons b rest ih =>
    intro k offset s
    have hp : (if pauses k = true then PauseDownload s else s).run = s.run := by
      split_ifs
      · exact PauseDownload_run s
      · rfl
    by_cases hn : b.n > 0
    · cases hw : b.writeErr with
      | some we =>
        simp [readLoopCtx, readLoop, workerContext, ctxDone, exitOf, hn, hw, hp]
      | none =>
        cases he : b.err with
        | EOF => simp [readLoopCtx, readLoop, workerContext, ctxDone, exitOf, hn, hw, he, hp]
        | failed e =>
          simp [readLoopCtx, readLoop, workerContext, ctxDone, exitOf, hn, hw, he, hp]
        | nil =>
          simp only [readLoopCtx, readLoop, workerContext, ctxDone, hn, hw, he, hp, if_true,
            Bool.false_eq_true, if_false]
          exact ih _ _ _
    · cases he : b.err with
      | EOF => simp [readLoopCtx, readLoop, workerContext, ctxDone, exitOf, hn, he, hp]
      | failed e => simp [readLoopCtx, readLoop, workerContext, ctxDone, exitOf, hn, he, hp]
      | nil =>
        simp only [readLoopCtx, readLoop, workerContext, ctxDone, hn, he, if_true,
          Bool.false_eq_true, if_false]
        have := ih (k + 1) offset (if pauses k = true then PauseDownload s else s)
        rw [hp] at this
        exact this

/-- Had the workers been given the context whose cancel function the
downloader holds, a call of `PauseDownload` right before a check would end
the read loop at that check with the context's error. -/
theorem readLoopCtx_cancelable (file : String) (pauses : Nat → Bool) (id : Nat)
    (body : List BodyRead) (k : Nat) (offset : Int) (s : Session)
    (hc : s.cancel = some id) (hk : pauses k = true) :
    readLoopCtx (Context.cancelable id) file pauses body k offset s =
      ({ s with cancelled := id :: s.cancelled }, LoopExit.ctxErr) := by
  have hp : PauseDownload s = { s with cancelled := id :: s.cancelled } := by
    simp [PauseDownload, hc]
  cases body <;> simp [readLoopCtx, hk, hp, ctxDone]

/-- C13 (the code at the failing input): `PauseDownload` on a downloader as the
source builds it does nothing, because `fd.cancel` is nil; the workers are given
the background context, so whenever `PauseDownload` is called the read loop is
never left through `ctx.Done()` and does what it does without the call. For a
chunk [0, 9] whose body comes in two reads of 5 bytes, with `PauseDownload`
called before the second read, the worker still performs both writes and leaves
the loop at the end of the body. -/
theorem PauseDownload_does_not_interrupt :
    (∀ config : DownloadConfig, PauseDownload (newSession config) = newSession config) ∧
    (∀ (file : String) (pauses : Nat → Bool) (body : List BodyRead) (k : Nat) (offset : Int)
        (s : Session),
      (readLoopCtx workerContext file pauses body k offset s).2 ≠ LoopExit.ctxErr ∧
      (readLoopCtx workerContext file pauses body k offset s).1.run
        = (readLoop file body offset s.run).1) ∧
    ((readLoopCtx workerContext "p" (fun k => decide (k = 1))
        [⟨5, ReadErr.nil, none⟩, ⟨5, ReadErr.EOF, none⟩] 0 0
        (newSession ⟨["u"], 1, 0, ["p"]⟩)).2 = LoopExit.finished ∧
      (readLoopCtx workerContext "p" (fun k => decide (k = 1))
        [⟨5, ReadErr.nil, none⟩, ⟨5, ReadErr.EOF, none⟩] 0 0
        (newSession ⟨["u"], 1, 0, ["p"]⟩)).1.run.writes = [⟨"p", 0, 5⟩, ⟨"p", 5, 5⟩]) := by
  refine ⟨fun _ => rfl, ?_, by decide, by decide⟩
  intro file pauses body k offset s
  obtain ⟨h1, h2⟩ := readLoopCtx_workerContext file pauses body k offset s
  refine ⟨?_, h1⟩
  rw [h2]
  cases (readLoop file body offset s.run).2 <;> simp [exitOf]

/-! ## The chunk planner in int64 arithmetic: agreement and overflow -/

theorem wrap64_of_inRange (x : Int) (h1 : -9223372036854775808 ≤ x)
    (h2 : x < 9223372036854775808) : wrap64 x = x := by
  unfold wrap64
  omega

/-- While no offset can pass `2^63 - 1`, the loop in `int64` arithmetic does
what the loop over the integers does. -/
theorem initChunksLoop64_eq (totalSize s : Int) (hs : 0 < s)
    (hsum : totalSize + s ≤ 9223372036854775808) :
    ∀ (fuel : Nat) (i : Int) (chunks : List DownloadChunk), 0 ≤ i → i < 9223372036854775808 →
      initChunksLoop64 totalSize s fuel i chunks = initChunksLoop totalSize s fuel i chunks := by
  intro fuel
  induction fuel with
  | zero => intro i chunks _ _; rfl
  | succ fuel ih =>
    intro i chunks h0 h1
    by_cases hlt : i < totalSize
    · have e1 : wrap64 (i + s) = i + s := wrap64_of_inRange _ (by omega) (by omega)
      have e2 : wrap64 (i + s - 1) = i + s - 1 := wrap64_of_inRange _ (by omega) (by omega)
      have e3 : wrap64 (totalSize - 1) = totalSize - 1 :=
        wrap64_of_inRange _ (by omega) (by omega)
      simp only [initChunksLoop64, initChunksLoop, hlt, if_true, e1, e2, e3]
      exact ih _ _ (by omega) (by omega)
    · simp only [initChunksLoop64, initChunksLoop, hlt, if_false]

/-- While the hint in bytes fits an `int64`, the chunk size in `int64`
arithmetic is the chunk size over the integers. -/
theorem initChunkSize64_eq (cfg : DownloadConfig) (totalSize : Int)
    (ht1 : -9223372036854775808 < totalSize) (ht2 : totalSize < 9223372036854775808)
    (hm1 : -9223372036854775808 ≤ cfg.ChunkSizeMB * 1048576)
    (hm2 : cfg.ChunkSizeMB * 1048576 < 9223372036854775808) :
    initChunkSize64 cfg totalSize = initChunkSize cfg totalSize := by
  have e1 : wrap64 (cfg.ChunkSizeMB * 1024) = cfg.ChunkSizeMB * 1024 :=
    wrap64_of_inRange _ (by omega) (by omega)
  have e2 : wrap64 (cfg.ChunkSizeMB * 1024 * 1024) = cfg.ChunkSizeMB * 1024 * 1024 :=
    wrap64_of_inRange _ (by omega) (by omega)
  have hq : wrap64 (Int.tdiv totalSize cfg.ThreadCount) = Int.tdiv totalSize cfg.ThreadCount := by
    have h1 := Int.natAbs_tdiv totalSize cfg.ThreadCount
    have h2 : (Int.natAbs totalSize).div (Int.natAbs cfg.ThreadCount) ≤ Int.natAbs totalSize :=
      Nat.div_le_self _ _
    apply wrap64_of_inRange <;> omega
  simp only [initChunkSize64, initChunkSize, e1, e2, hq]

/-- With a positive file size, a hint or a thread count of at least 1, a hint
whose size in bytes fits an `int64`, and `totalSize + s` not above `2^63` for
the effective chunk size `s`, `initChunks` in `int64` arithmetic returns the
specified plan once the fuel exceeds the specified number of chunks. -/
theorem initChunks64_plan (fuel : Nat) (fd : FastDownloader) (ht : 0 < fd.totalSize)
    (hcfg : 0 < fd.config.ChunkSizeMB ∨ 1 ≤ fd.config.ThreadCount)
    (hhint : -9223372036854775808 ≤ fd.config.ChunkSizeMB * 1048576)
    (hsum : fd.totalSize +
        specChunkSize fd.totalSize fd.config.ThreadCount fd.config.ChunkSizeMB
          ≤ 9223372036854775808)
    (hfuel : specChunkCount fd.totalSize
        (specChunkSize fd.totalSize fd.config.ThreadCount fd.config.ChunkSizeMB) < fuel) :
    initChunks64 fuel fd = Except.ok
      { fd with
        chunks := specPlan fd.totalSize
          (specChunkSize fd.totalSize fd.config.ThreadCount fd.config.ChunkSizeMB) } := by
  obtain ⟨hsize, hpos⟩ := initChunkSize_spec fd.config fd.totalSize ht hcfg
  have hm2 : fd.config.ChunkSizeMB * 1048576 < 9223372036854775808 := by
    by_cases hm : 0 < fd.config.ChunkSizeMB
    · have hs : specChunkSize fd.totalSize fd.config.ThreadCount fd.config.ChunkSizeMB
          = fd.config.ChunkSizeMB * 1048576 := by
        simp [specChunkSize, hm]
      rw [hs] at hsum
      omega
    · omega
  have h64 : initChunkSize64 fd.config fd.totalSize = initChunkSize fd.config fd.totalSize :=
    initChunkSize64_eq fd.config fd.totalSize (by omega) (by omega) hhint hm2
  have hloop := initChunksLoop64_eq fd.totalSize _ hpos hsum fuel 0 [] (le_refl 0) (by decide)
  have hplan := (initChunks_plan fuel fd ht hcfg hfuel).1
  unfold initChunks at hplan
  rw [hsize] at hplan
  unfold initChunks64
  rw [h64, hsize]
  dsimp only at hplan ⊢
  rw [hloop]
  exact hplan

/-- The chunks the loop returns begin with the chunks it was entered with. -/
theorem initChunksLoop64_prefix (totalSize s : Int) :
    ∀ (fuel : Nat) (i : Int) (chunks res : List DownloadChunk),
      initChunksLoop64 totalSize s fuel i chunks = Except.ok res → chunks <+: res := by
  intro fuel
  induction fuel with
  | zero =>
    intro i chunks res h
    simp only [initChunksLoop64] at h
    cases h
  | succ fuel ih =>
    intro i chunks res h
    simp only [initChunksLoop64] at h
    split at h
    · exact (List.prefix_append chunks _).trans (ih _ _ _ h)
    · cases h
      exact List.prefix_refl _

/-- C5 (the code at the failing input): a HEAD reply with
`Content-Length: 9223372036854775807` and 2 threads, no hint. The effective
chunk size is 4611686018427387903 and the specified plan has 3 chunks, the
last being the single byte 9223372036854775806. In `int64` arithmetic the end
of the third chunk, `i + chunkSize - 1`, wraps to -4611686018427387908, the
next `i` is negative, and the loop goes on: after 10 iterations it has not
ended, whatever plan it returns begins with the wrapped chunk, and so it
never returns the specified plan. -/
theorem initChunks64_wraps_near_max :
    specChunkSize 9223372036854775807 2 0 = 4611686018427387903 ∧
    specPlan 9223372036854775807 4611686018427387903 =
      [⟨0, 4611686018427387902, false⟩,
       ⟨4611686018427387903, 9223372036854775805, false⟩,
       ⟨9223372036854775806, 9223372036854775806, false⟩] ∧
    initChunks64 10 (planInput 9223372036854775807 2 0) = Except.error Fault.outOfFuel ∧
    (∀ (fuel : Nat) (fd' : FastDownloader),
      initChunks64 fuel (planInput 9223372036854775807 2 0) = Except.ok fd' →
      fd'.chunks.take 3 =
        [⟨0, 4611686018427387902, false⟩,
         ⟨4611686018427387903, 9223372036854775805, false⟩,
         ⟨9223372036854775806, -4611686018427387908, false⟩]) ∧
    ∀ fuel : Nat,
      initChunks64 fuel (planInput 9223372036854775807 2 0) ≠ Except.ok
        { planInput 9223372036854775807 2 0 with
          chunks := specPlan 9223372036854775807 (specChunkSize 9223372036854775807 2 0) } := by
  have key : ∀ (fuel : Nat) (fd' : FastDownloader),
      initChunks64 fuel (planInput 9223372036854775807 2 0) = Except.ok fd' →
      fd'.chunks.take 3 =
        [⟨0, 4611686018427387902, false⟩,
         ⟨4611686018427387903, 9223372036854775805, false⟩,
         ⟨9223372036854775806, -4611686018427387908, false⟩] := ?_
  · exact ⟨by decide, by decide, by decide, key,
      fun fuel h => absurd (key fuel _ h) (by decide)⟩
  intro fuel fd' h
  have hsize : initChunkSize64 (planInput 9223372036854775807 2 0).config
      (planInput 9223372036854775807 2 0).totalSize = some 4611686018427387903 := by decide
  unfold initChunks64 at h
  rw [hsize] at h
  dsimp only at h
  split at h
  · cases h
  · next res hres =>
    cases h
    have hT : (planInput 9223372036854775807 2 0).totalSize = 9223372036854775807 := rfl
    rw [hT] at hres
    rcases Nat.lt_or_ge fuel 3 with hf | hf
    · interval_cases fuel <;> simp [initChunksLoop64, wrap64] at hres
    · obtain ⟨f, rfl⟩ : ∃ f, fuel = f + 3 := ⟨fuel - 3, by omega⟩
      simp only [initChunksLoop64, wrap64] at hres
      norm_num at hres
      have hp := initChunksLoop64_prefix _ _ _ _ _ _ hres
      obtain ⟨t, rfl⟩ := hp
      rfl

/-! ## Progress reports of interleaved workers -/

/-- A worker that takes the steps of one non-empty read and of the end of its
body without another worker in between does what `downloadChunk` does from
the read loop on. -/
theorem stepWorker_uninterrupted (i : Nat) (file : String) (offset : Int) (n : Nat)
    (d t a : Int) (r : Run) (hn : n > 0) :
    (runSchedule [0, 0, 0, 0, 0, 0, 0] [⟨i, file, offset, [n], Pc.write, d, t, a⟩] r).2 =
      { (readLoop file (body n) offset r).1 with
        fd := { (readLoop file (body n) offset r).1.fd with
          chunks := markDone (readLoop file (body n) offset r).1.fd.chunks i } } := by
  simp only [runSchedule, stepWorker, List.get?, List.set, readLoop, body, hn, if_true,
    notifyProgress, SendMessage]
  simp

/-- C7 (the code at the failing input): a 10-byte file in the chunks [0, 4]
and [5, 9], each range request answered with its 5 bytes. When both workers
read `fd.lastDownloaded` (line 473) before either writes it (line 474), the
update events carry `Added` = 0, 5, 10, 0, which sum to 15, while the
downloaded counter ends at 10 and each worker has written its 5 bytes. When
the workers take their steps one after the other, the run ends in the state
in which `startSingleDownload` ends, and the sum is 10. -/
theorem sumAdded_under_race :
    (fetchInterleaved [0, 0, 0, 0, 1, 1, 1, 1, 0, 0, 0, 1, 1, 1] halvesWorkers
      plannedHalves).sent =
      [⟨⟨EventTypeUpdate, "update"⟩, Payload.update 0 0⟩,
       ⟨⟨EventTypeUpdate, "update"⟩, Payload.update 10 5⟩,
       ⟨⟨EventTypeUpdate, "update"⟩, Payload.update 10 10⟩,
       ⟨⟨EventTypeUpdate, "update"⟩, Payload.update 10 0⟩] ∧
    sumAdded (fetchInterleaved [0, 0, 0, 0, 1, 1, 1, 1, 0, 0, 0, 1, 1, 1] halvesWorkers
      plannedHalves).sent = 15 ∧
    (fetchInterleaved [0, 0, 0, 0, 1, 1, 1, 1, 0, 0, 0, 1, 1, 1] halvesWorkers
      plannedHalves).fd.downloaded = 10 ∧
    (fetchInterleaved [0, 0, 0, 0, 1, 1, 1, 1, 0, 0, 0, 1, 1, 1] halvesWorkers
      plannedHalves).fd.chunks = [⟨0, 4, true⟩, ⟨5, 9, true⟩] ∧
    (fetchInterleaved [0, 0, 0, 0, 1, 1, 1, 1, 0, 0, 0, 1, 1, 1] halvesWorkers
      plannedHalves).writes = [⟨"p", 0, 5⟩, ⟨"p", 5, 5⟩] ∧
    startSingleDownload 3 halves "u" "p" (oneFile 2 0) =
      Except.ok (fetchInterleaved [0, 0, 0, 0, 0, 0, 0, 1, 1, 1, 1, 1, 1, 1] halvesWorkers
        plannedHalves, none) ∧
    sumAdded (fetchInterleaved [0, 0, 0, 0, 0, 0, 0, 1, 1, 1, 1, 1, 1, 1] halvesWorkers
      plannedHalves).sent = 10 := by
  refine ⟨by decide, by decide, by decide, by decide, by decide, by decide, by decide⟩

end Downloader
